import Mathlib

/-!
Verification of the ngo chaincode (non-profit-blockchain repository).

The chaincode is a JavaScript Hyperledger Fabric transaction processor.  We
shallowly embed its two layers:

* a generic key-value layer (`getState`, `queryByKey`, `queryByString`) over an
  ordered document store, where stored payloads are either a parsed JSON record
  (a list of string fields) or an opaque raw string (the parse-failure
  fallback of `queryByString`);
* the typed donation/spend layer (`allocateSpend`, `createSpend`) over a store
  of NGO, donation, spend and spendAllocation documents, with amounts embedded
  as exact rationals (the JavaScript program uses IEEE numbers; the claims are
  about the exact arithmetic the spec prescribes).

Key order of the underlying store is lexicographic byte order; we model it
with an executable lexicographic comparison on character lists.
-/

/-- Lexicographic strict order on character lists, mirroring the byte order the
underlying LevelDB store uses for range scans. -/
def lexLt : List Char → List Char → Bool
  | [], [] => false
  | [], _ :: _ => true
  | _ :: _, [] => false
  | a :: as, b :: bs => if a < b then true else if b < a then false else lexLt as bs

/-- Strict key order of the store. -/
def keyLt (a b : String) : Bool := lexLt a.data b.data

/-- Reflexive key order of the store (total order: not strictly greater). -/
def keyLe (a b : String) : Bool := ! keyLt b a

/-- A payload held by the store: a parsed JSON record (field name / field value
pairs, the values stringly typed as in the chaincode's filter comparisons) or
the raw string kept when JSON parsing fails in queryByString. -/
inductive QVal where
  | record (fields : List (String × String))
  | raw (s : String)
deriving DecidableEq

/-- A generic store: entries listed in ascending key order (the scan order of
getStateByRange). -/
abbrev KVStore := List (String × QVal)

/-- Whether a stored payload serializes to the empty string.  A parsed record
always serializes to nonempty JSON text. -/
def isEmptyVal : QVal → Bool
  | .raw "" => true
  | _ => false

/-- Model of stub.getState: point lookup returning the payload, or none when
the key is absent (Fabric returns an empty buffer; it does not throw). -/
def getState (st : KVStore) (k : String) : Option QVal :=
  (st.find? (fun e => e.1 = k)).map (fun e => e.2)

/-- Model of the chaincode helper queryByKey: looks the key up with getState
and throws (error result) when the key is absent or the payload is empty. -/
def queryByKey (st : KVStore) (k : String) : Except String QVal :=
  match getState st k with
  | none => .error ("queryByKey key: " ++ k ++ " does not exist")
  | some v =>
    if isEmptyVal v then .error ("queryByKey key: " ++ k ++ " does not exist")
    else .ok v

/-- A parsed query selector: the mandatory docType plus at most one extra
equality predicate, exactly the shape every queryByString call site builds. -/
structure Selector where
  docType : String
  extra : Option (String × String)
deriving DecidableEq

/-- Field lookup on a payload; an opaque (unparsed) payload has no fields. -/
def recField : QVal → String → Option String
  | .record fields, f => (fields.find? (fun p => p.1 = f)).map (fun p => p.2)
  | .raw _, _ => none

/-- Model of stub.getStateByRange: entries with lo <= key < hi, in store
order. -/
def scanRange (st : KVStore) (lo hi : String) : KVStore :=
  st.filter (fun e => keyLe lo e.1 && keyLt e.1 hi)

/-- The records queryByString iterates over: the range scan between
docType + "0" and docType + "z", skipping entries whose payload is empty
(the iterator guard res.value.value.toString()). -/
def scannedRecords (st : KVStore) (docType : String) : KVStore :=
  (scanRange st (docType ++ "0") (docType ++ "z")).filter
    (fun e => ! isEmptyVal e.2)

/-- The LevelDB filter of queryByString for the one extra selector field: the
record must have the field, the value must be truthy (nonempty string), and it
must equal the selector value. -/
def matchesSelector (v : QVal) (f val : String) : Bool :=
  match recField v f with
  | some w => (! (w = "")) && (w = val)
  | none => false

/-- Model of the chaincode helper queryByString for the selector shapes the
chaincode builds (docType alone, or docType plus one equality field). -/
def queryByString (st : KVStore) (sel : Selector) : KVStore :=
  match sel.extra with
  | none => scannedRecords st sel.docType
  | some (f, val) =>
    (scannedRecords st sel.docType).filter (fun e => matchesSelector e.2 f val)

/-- Modelled from the spec: the spec says the engine emits exactly the scanned
records whose field equals the given value (spec 4.2 step 5), with no
truthiness requirement on the field value.  Kept for comparison with the
code's matchesSelector. -/
def matchesSelectorSpec (v : QVal) (f val : String) : Bool :=
  match recField v f with
  | some w => w = val
  | none => false

/-- Modelled from the spec: queryByString as the spec words it (spec 4.2
steps 4 and 5). -/
def queryByStringSpec (st : KVStore) (sel : Selector) : KVStore :=
  match sel.extra with
  | none => scannedRecords st sel.docType
  | some (f, val) =>
    (scannedRecords st sel.docType).filter
      (fun e => matchesSelectorSpec e.2 f val)

/-!
The typed donation/spend layer.  Documents are embedded with their docType as
the constructor of an inductive; amounts are exact rationals.
-/

/-- A JavaScript value in amount position, kept abstract enough to embed the
validation of spend.spendAmount (truthiness, typeof, isFinite) faithfully. -/
inductive JSVal where
  | num (q : ℚ)
  | nan
  | posInf
  | negInf
  | str (s : String)
  | undef
deriving DecidableEq

/-- JavaScript truthiness of a JSVal: 0, NaN, the empty string and undefined
are falsy. -/
def JSVal.truthy : JSVal → Bool
  | .num q => decide (q ≠ 0)
  | .nan => false
  | .posInf => true
  | .negInf => true
  | .str s => decide (s ≠ "")
  | .undef => false

/-- Whether typeof yields 'number' (NaN and the infinities are numbers). -/
def JSVal.isNumberType : JSVal → Bool
  | .num _ => true
  | .nan => true
  | .posInf => true
  | .negInf => true
  | _ => false

/-- Whether isFinite holds (only actual finite numbers). -/
def JSVal.isFiniteNumber : JSVal → Bool
  | .num _ => true
  | _ => false

/-- The numeric value of a JSVal once validated as a finite number. -/
def JSVal.ratValue : JSVal → ℚ
  | .num q => q
  | _ => 0

/-- The validation allocateSpend performs on spend.spendAmount:
spend.spendAmount must be truthy, of number type, and finite. -/
def validSpendAmount (v : JSVal) : Bool :=
  v.truthy && v.isNumberType && v.isFiniteNumber

/-- A donation record as stored by createDonation. -/
structure Donation where
  donationId : String
  donationAmount : ℚ
  donationDate : String
  donorUserName : String
  ngoRegistrationNumber : String
deriving DecidableEq

/-- A spend record (the argument of createSpend / allocateSpend, and the
payload written under the spend key; its docType is the Doc constructor). -/
structure SpendRec where
  spendId : String
  spendAmount : JSVal
  spendDate : String
  spendDescription : String
  ngoRegistrationNumber : String
deriving DecidableEq

/-- A spendAllocation record, written only by allocateSpend. -/
structure SpendAllocation where
  spendAllocationId : String
  spendAllocationAmount : ℚ
  spendAllocationDate : String
  spendAllocationDescription : String
  donationId : String
  ngoRegistrationNumber : String
  spendId : String
deriving DecidableEq

/-- A stored document; the constructor plays the role of the docType tag, and
raw covers empty or unparseable payloads. -/
inductive Doc where
  | ngo (fields : List (String × String))
  | donation (d : Donation)
  | spend (s : SpendRec)
  | spendAllocation (a : SpendAllocation)
  | raw (s : String)
deriving DecidableEq

/-- The typed store: entries in ascending key order. -/
abbrev Store := List (String × Doc)

/-- One pending write (putState key and payload). -/
abbrev Write := String × Doc

/-- Point lookup on the typed store (stub.getState). -/
def getDoc (st : Store) (k : String) : Option Doc :=
  (st.find? (fun e => e.1 = k)).map (fun e => e.2)

/-- Whether a getState result is present with nonempty serialization, i.e.
passes the queryByKey guard and the toString() truthiness checks. -/
def presentDoc : Option Doc → Bool
  | none => false
  | some (.raw "") => false
  | some _ => true

/-- Whether a key falls in the queryByString scan window for a docType:
docType + "0" <= key < docType + "z". -/
def inDocRange (docType : String) (k : String) : Bool :=
  keyLe (docType ++ "0") k && keyLt k (docType ++ "z")

/-- The donation query allocateSpend issues (queryByString with selector
docType donation and equality field ngoRegistrationNumber): donation records
in the scan window whose ngoRegistrationNumber field is truthy and equals the
requested NGO, in store order. -/
def donationsForNGO (st : Store) (ngo : String) : List Donation :=
  st.filterMap (fun e =>
    match e.2 with
    | .donation d =>
      if inDocRange "donation" e.1 ∧ d.ngoRegistrationNumber ≠ "" ∧
          d.ngoRegistrationNumber = ngo then some d else none
    | _ => none)

/-- The spendAllocation query allocateSpend issues (selector docType
spendAllocation, equality field ngoRegistrationNumber). -/
def spendAllocationsForNGO (st : Store) (ngo : String) : List SpendAllocation :=
  st.filterMap (fun e =>
    match e.2 with
    | .spendAllocation a =>
      if inDocRange "spendAllocation" e.1 ∧ a.ngoRegistrationNumber ≠ "" ∧
          a.ngoRegistrationNumber = ngo then some a else none
    | _ => none)

/-- JavaScript Map.set on an association list: overwrite in place when the key
exists (keeping the original insertion position), append otherwise. -/
def mapSet {α : Type} (m : List (String × α)) (k : String) (v : α) :
    List (String × α) :=
  if m.any (fun p => p.1 = k) then
    m.map (fun p => if p.1 = k then (k, v) else p)
  else m ++ [(k, v)]

/-- JavaScript Map.get with a default for missing keys. -/
def mapGetD {α : Type} (m : List (String × α)) (k : String) (d : α) : α :=
  match m.find? (fun p => p.1 = k) with
  | some p => p.2
  | none => d

/-- The donationMap allocateSpend builds: donationId to donation record, in
iteration order of the donation query (Map insertion order). -/
def buildDonationMap (ds : List Donation) : List (String × Donation) :=
  ds.foldl (fun m d => mapSet m d.donationId d) []

/-- totalDonations: the sum of donationAmount over the donation query result
(computed over the list, before deduplication into the map). -/
def totalDonationAmount (ds : List Donation) : ℚ :=
  (ds.map (fun d => d.donationAmount)).sum

/-- The donationSpendMap allocateSpend builds: donationId to the summed
spendAllocationAmount of the prior allocations referencing it. -/
def buildSpendMap (allocs : List SpendAllocation) : List (String × ℚ) :=
  allocs.foldl
    (fun m a =>
      mapSet m a.donationId (mapGetD m a.donationId 0 + a.spendAllocationAmount))
    []

/-- totalSpend: the sum of spendAllocationAmount over the allocation query
result. -/
def totalSpendAmount (allocs : List SpendAllocation) : ℚ :=
  (allocs.map (fun a => a.spendAllocationAmount)).sum

/-- The failure modes of allocateSpend / createSpend.  The first five are the
thrown rejections; the fatal ones are the internal invariant checks inside the
allocation loop; outOfFuel is the artifact of embedding the while loop with
fuel. -/
inductive AllocErr where
  | invalidSpendAmount
  | missingSpendId
  | ngoNotFound
  | insufficientFunds
  | duplicateSpend
  | fatalSpendAmount
  | fatalNumberOfDonations
  | fatalSpendPerDonation
  | outOfFuel
deriving DecidableEq

/-- The outcome of a run: the putState calls issued, in order, and the thrown
error if the run did not complete. -/
structure RunResult where
  writes : List Write
  err : Option AllocErr
deriving DecidableEq

/-- numberOfDonations: donations in the map whose donationAmount minus the
amount already allocated to them is positive. -/
def countEligible (dons : List (String × Donation)) (dsm : List (String × ℚ)) :
    ℕ :=
  (dons.filter (fun p => decide (0 < p.2.donationAmount - mapGetD dsm p.1 0))).length

/-- The spendAllocation record the allocation loop builds: the id is the
transaction id, a dash, and the decimal record counter. -/
def allocRecordData (tx : String) (sp : SpendRec) (ngo did : String) (amt : ℚ)
    (ctr : ℕ) : SpendAllocation :=
  { spendAllocationId := tx ++ "-" ++ Nat.repr ctr
    spendAllocationAmount := amt
    spendAllocationDate := sp.spendDate
    spendAllocationDescription := sp.spendDescription
    donationId := did
    ngoRegistrationNumber := ngo
    spendId := sp.spendId }

/-- Build one spendAllocation write (key and payload) as the allocation loop
does; the key prefixes the id with the docType. -/
def allocRecord (tx : String) (sp : SpendRec) (ngo did : String) (amt : ℚ)
    (ctr : ℕ) : Write :=
  ("spendAllocation" ++ (tx ++ "-" ++ Nat.repr ctr),
   Doc.spendAllocation (allocRecordData tx sp ngo did amt ctr))

/-- The result of one pass of the inner for loop over donationMap. -/
structure PassResult where
  amount : ℚ
  dsm : List (String × ℚ)
  ctr : ℕ
  writes : List Write
deriving DecidableEq

/-- One pass of the for loop over donationMap with a fixed share: a donation
whose available amount covers the share receives exactly the share; one with
positive but insufficient available amount receives all of it; one with no
available amount is skipped.  Each write decrements the remaining spend amount
and updates the donationSpendMap. -/
def allocPass (tx : String) (sp : SpendRec) (ngo : String) (share : ℚ) :
    List (String × Donation) → ℚ → List (String × ℚ) → ℕ → PassResult
  | [], amount, dsm, ctr => ⟨amount, dsm, ctr, []⟩
  | (did, d) :: rest, amount, dsm, ctr =>
    let spent := mapGetD dsm did 0
    let avail := d.donationAmount - spent
    if share ≤ avail then
      let w := allocRecord tx sp ngo did share ctr
      let next := allocPass tx sp ngo share rest (amount - share)
        (mapSet dsm did (spent + share)) (ctr + 1)
      ⟨next.amount, next.dsm, next.ctr, w :: next.writes⟩
    else if 0 < avail then
      let w := allocRecord tx sp ngo did avail ctr
      let next := allocPass tx sp ngo share rest (amount - avail)
        (mapSet dsm did (spent + avail)) (ctr + 1)
      ⟨next.amount, next.dsm, next.ctr, w :: next.writes⟩
    else
      allocPass tx sp ngo share rest amount dsm ctr

/-- The while loop of allocateSpend, embedded with fuel: stop once the
remaining amount is not positive; otherwise recount the eligible donations,
run the internal validity checks (in the rational embedding the spendAmount
and spendPerDonation truthiness checks can only fire on zero), allocate one
equal-share pass, and loop. -/
def allocLoop (tx : String) (sp : SpendRec) (ngo : String)
    (dons : List (String × Donation)) :
    ℕ → ℚ → List (String × ℚ) → ℕ → RunResult
  | 0, _, _, _ => ⟨[], some .outOfFuel⟩
  | fuel + 1, amount, dsm, ctr =>
    if amount ≤ 0 then ⟨[], none⟩
    else
      let n := countEligible dons dsm
      if amount = 0 then ⟨[], some .fatalSpendAmount⟩
      else if n = 0 then ⟨[], some .fatalNumberOfDonations⟩
      else
        let share := amount / (n : ℚ)
        if share = 0 then ⟨[], some .fatalSpendPerDonation⟩
        else
          let p := allocPass tx sp ngo share dons amount dsm ctr
          let next := allocLoop tx sp ngo dons fuel p.amount p.dsm p.ctr
          ⟨p.writes ++ next.writes, next.err⟩

/-- Model of allocateSpend: validate the amount and the spend id, require the
NGO document, load the donations and prior allocations of the NGO, reject when
the spend exceeds totalDonations - totalSpend, then write the spend record and
run the allocation loop.  The writes list holds the putState calls issued
before the run ended. -/
def allocateSpend (st : Store) (tx : String) (sp : SpendRec) (fuel : ℕ) :
    RunResult :=
  if ¬ validSpendAmount sp.spendAmount then ⟨[], some .invalidSpendAmount⟩
  else if sp.spendId = "" then ⟨[], some .missingSpendId⟩
  else if ¬ presentDoc (getDoc st ("ngo" ++ sp.ngoRegistrationNumber)) then
    ⟨[], some .ngoNotFound⟩
  else
    let ngo := sp.ngoRegistrationNumber
    let ds := donationsForNGO st ngo
    let allocs := spendAllocationsForNGO st ngo
    let q := sp.spendAmount.ratValue
    if totalDonationAmount ds - totalSpendAmount allocs < q then
      ⟨[], some .insufficientFunds⟩
    else
      let r := allocLoop tx sp ngo (buildDonationMap ds) fuel q
        (buildSpendMap allocs) 0
      ⟨("spend" ++ sp.spendId, Doc.spend sp) :: r.writes, r.err⟩

/-- Model of createSpend: set docType to spend (the Doc.spend constructor),
require the NGO, reject a duplicate spend id, run allocateSpend, then put the
spend record once more under the same key. -/
def createSpend (st : Store) (tx : String) (sp : SpendRec) (fuel : ℕ) :
    RunResult :=
  let key := "spend" ++ sp.spendId
  if ¬ presentDoc (getDoc st ("ngo" ++ sp.ngoRegistrationNumber)) then
    ⟨[], some .ngoNotFound⟩
  else if presentDoc (getDoc st key) then ⟨[], some .duplicateSpend⟩
  else
    let r := allocateSpend st tx sp fuel
    match r.err with
    | some e => ⟨r.writes, some e⟩
    | none => ⟨r.writes ++ [(key, Doc.spend sp)], none⟩

/-- putState on the typed store: overwrite in place when the key exists,
append otherwise. -/
def putDoc (st : Store) (w : Write) : Store :=
  if st.any (fun e => e.1 = w.1) then
    st.map (fun e => if e.1 = w.1 then w else e)
  else st ++ [w]

/-- Apply a write set in order. -/
def applyWrites (st : Store) (ws : List Write) : Store :=
  ws.foldl putDoc st

/-- The spendAllocation records among a write set. -/
def allocationsOf (ws : List Write) : List SpendAllocation :=
  ws.filterMap (fun w =>
    match w.2 with
    | .spendAllocation a => some a
    | _ => none)

/-- Sum of the spendAllocationAmount fields over the spendAllocation records
of a write set. -/
def sumAllocWrites (ws : List Write) : ℚ :=
  ((allocationsOf ws).map (fun a => a.spendAllocationAmount)).sum

/-- Sum of the spendAllocationAmount fields over the spendAllocation records
of a write set that reference a given donation. -/
def sumAllocWritesFor (ws : List Write) (did : String) : ℚ :=
  (((allocationsOf ws).filter (fun a => a.donationId = did)).map
    (fun a => a.spendAllocationAmount)).sum

/-- The spendAllocation ids of a write set, in write order. -/
def allocIds (ws : List Write) : List String :=
  (allocationsOf ws).map (fun a => a.spendAllocationId)

/-- Sum of the spendAllocationAmount fields over all spendAllocation documents
of a store that reference a given donation. -/
def storeAllocSum (st : Store) (did : String) : ℚ :=
  sumAllocWritesFor st did

/-- The donation documents of a store. -/
def donationDocsOf (st : Store) : List Donation :=
  st.filterMap (fun e =>
    match e.2 with
    | .donation d => some d
    | _ => none)

/-- Sum of the amounts of the allocations in a list that reference a given
donation. -/
def sumAllocFor (allocs : List SpendAllocation) (did : String) : ℚ :=
  ((allocs.filter (fun a => a.donationId = did)).map
    (fun a => a.spendAllocationAmount)).sum

/-- The total amount the NGO can still draw from its donations, as seen by an
allocation pass: per donation of the map, the positive part of donationAmount
minus the amount already allocated to it. -/
def surplus (dons : List (String × Donation)) (dsm : List (String × ℚ)) : ℚ :=
  (dons.map (fun p => max 0 (p.2.donationAmount - mapGetD dsm p.1 0))).sum

/-- Whether a transaction id generates allocation keys inside the
spendAllocation scan window: nonempty, first character at least '0' and
strictly below 'z' (Fabric transaction ids are lowercase hex). -/
def txIdOk (tx : String) : Bool :=
  match tx.data with
  | [] => false
  | c :: _ => decide ('0' ≤ c) && decide (c < 'z')

/-- One invocation of allocateSpend in a sequence: transaction id, request,
and loop fuel. -/
structure SpendCall where
  tx : String
  sp : SpendRec
  fuel : ℕ

/-- Apply one call: commit its writes when it succeeds, leave the store
unchanged when it throws (the Fabric host discards the write set of a failed
transaction). -/
def stepStore (st : Store) (c : SpendCall) : Store :=
  match (allocateSpend st c.tx c.sp c.fuel).err with
  | none => applyWrites st (allocateSpend st c.tx c.sp c.fuel).writes
  | some _ => st

/-- Run a sequence of allocateSpend calls against the store. -/
def runSeq : Store → List SpendCall → Store
  | st, [] => st
  | st, c :: cs => runSeq (stepStore st c) cs

/-- Freshness of one call: the transaction id is well formed and every key the
call writes is new to the store and distinct within the call (transaction ids
are unique and spend ids are checked by createSpend). -/
def callFresh (st : Store) (c : SpendCall) : Bool :=
  txIdOk c.tx &&
    ((allocateSpend st c.tx c.sp c.fuel).writes.map Prod.fst).Nodup &&
    (allocateSpend st c.tx c.sp c.fuel).writes.all
      (fun w => getDoc st w.1 = none)

/-- Freshness along a whole sequence of calls. -/
def freshSeq : Store → List SpendCall → Bool
  | _, [] => true
  | st, c :: cs => callFresh st c && freshSeq (stepStore st c) cs

/-- The store invariant of the spec (section 3): donationIds identify
donation records uniquely; spendAllocation documents sit under the key
spendAllocation + id inside the scan window, carry nonnegative amounts, and
reference a donation of their own NGO; and no donation is over-allocated. -/
structure StoreInv (st : Store) : Prop where
  donUnique : ∀ d ∈ donationDocsOf st, ∀ d' ∈ donationDocsOf st,
    d.donationId = d'.donationId → d = d'
  allocWf : ∀ e ∈ st, ∀ a, e.2 = Doc.spendAllocation a →
    e.1 = "spendAllocation" ++ a.spendAllocationId ∧
      inDocRange "spendAllocation" e.1 = true ∧
      0 ≤ a.spendAllocationAmount ∧
      ∀ d ∈ donationDocsOf st, d.donationId = a.donationId →
        a.ngoRegistrationNumber = d.ngoRegistrationNumber
  allocBound : ∀ d ∈ donationDocsOf st,
    storeAllocSum st d.donationId ≤ d.donationAmount

/-- Concrete data for the conservation claim. -/
def c1Store : Store :=
  [("ngoN1", Doc.ngo [("ngoRegistrationNumber", "N1")]),
   ("donationD1", Doc.donation ⟨"D1", 100, "dt", "don", "N1"⟩)]

/-- Concrete spend request for the conservation claim. -/
def c1Spend : SpendRec := ⟨"S1", JSVal.num 40, "dt", "food", "N1"⟩

/-- Concrete data for the determinism claim (spec scenario 2). -/
def c2Store : Store :=
  [("ngoN2", Doc.ngo []),
   ("donationE1", Doc.donation ⟨"E1", 60, "dt", "a", "N2"⟩),
   ("donationE2", Doc.donation ⟨"E2", 40, "dt", "b", "N2"⟩)]

/-- Concrete spend request for the determinism claim. -/
def c2Spend : SpendRec := ⟨"S2", JSVal.num 50, "dt", "vet", "N2"⟩

/-- Concrete data for the no-over-allocation claim. -/
def c3Store : Store :=
  [("ngoN3", Doc.ngo []),
   ("donationF1", Doc.donation ⟨"F1", 100, "dt", "don", "N3"⟩)]

/-- Concrete call sequence for the no-over-allocation claim. -/
def c3Calls : List SpendCall :=
  [⟨"a1", ⟨"S3a", JSVal.num 70, "dt", "x", "N3"⟩, 2⟩,
   ⟨"b2", ⟨"S3b", JSVal.num 30, "dt", "y", "N3"⟩, 2⟩]

/-- Concrete data for the rejection claim: an NGO with no donations, so any
positive spend is rejected for insufficient funds. -/
def c4Store : Store := [("ngoN4", Doc.ngo [])]

/-- Concrete spend request for the rejection claim. -/
def c4Spend : SpendRec := ⟨"S4", JSVal.num 10, "dt", "d", "N4"⟩

/-- Concrete data for the validation claim. -/
def c5Store : Store :=
  [("ngoN5", Doc.ngo []),
   ("donationG1", Doc.donation ⟨"G1", 100, "dt", "don", "N5"⟩)]

/-- A spend request with a negative amount (the validation slip). -/
def c5Spend : SpendRec := ⟨"S5", JSVal.num (-5), "dt", "d", "N5"⟩

/-- Concrete data for the allocation-trace claim (spec scenario 3). -/
def c6Store : Store :=
  [("ngoN1", Doc.ngo []),
   ("donationD1", Doc.donation ⟨"D1", 30, "dt", "u1", "N1"⟩),
   ("donationD2", Doc.donation ⟨"D2", 70, "dt", "u2", "N1"⟩)]

/-- Concrete spend request for the allocation-trace claim. -/
def c6Spend : SpendRec := ⟨"S3", JSVal.num 80, "dt", "desc", "N1"⟩

/-- Concrete store with two donation records sharing a donationId, making the
fatal branch reachable. -/
def c7BadStore : Store :=
  [("ngoN7", Doc.ngo []),
   ("donationH1", Doc.donation ⟨"H1", 50, "dt", "a", "N7"⟩),
   ("donationH2", Doc.donation ⟨"H1", 0, "dt", "b", "N7"⟩)]

/-- Spend request that passes the sufficient-funds check on c7BadStore. -/
def c7Spend : SpendRec := ⟨"S7", JSVal.num 50, "dt", "d", "N7"⟩

/-- Well-formed concrete store for the amended unreachability claim. -/
def c7GoodStore : Store :=
  [("ngoN7", Doc.ngo []),
   ("donationH1", Doc.donation ⟨"H1", 50, "dt", "a", "N7"⟩),
   ("donationH2", Doc.donation ⟨"H2", 50, "dt", "b", "N7"⟩)]

/-- Concrete data for the duplicate-put claim. -/
def c10Store : Store :=
  [("ngoN10", Doc.ngo []),
   ("donationK1", Doc.donation ⟨"K1", 100, "dt", "don", "N10"⟩)]

/-- Concrete spend request for the duplicate-put claim. -/
def c10Spend : SpendRec := ⟨"S10", JSVal.num 25, "dt", "d", "N10"⟩

/-!
Association-list lemmas for the JavaScript Map operations.
-/

theorem rep_key {α : Type} (k : String) (v : α) (p : String × α) :
    (if p.1 = k then (k, v) else p).1 = p.1 := by
  by_cases h : p.1 = k <;> simp [h]

theorem find?_map_rep {α : Type} (m : List (String × α)) (k k' : String)
    (v : α) :
    (m.map (fun p => if p.1 = k then (k, v) else p)).find?
        (fun p => p.1 = k') =
      (m.find? (fun p => p.1 = k')).map
        (fun p => if p.1 = k then (k, v) else p) := by
  induction m with
  | nil => rfl
  | cons a m ih =>
    by_cases hak' : a.1 = k'
    · have h1 : (if a.1 = k then (k, v) else a).1 = k' := by rw [rep_key, hak']
      rw [List.map_cons, List.find?_cons_of_pos _ (by simp [h1]),
        List.find?_cons_of_pos _ (by simp [hak'])]
      simp
    · have h1 : ¬ (if a.1 = k then (k, v) else a).1 = k' := by
        rw [rep_key]; exact hak'
      rw [List.map_cons, List.find?_cons_of_neg _ (by simp [h1]),
        List.find?_cons_of_neg _ (by simp [hak'])]
      exact ih

theorem mapGetD_mapSet {α : Type} (m : List (String × α)) (k k' : String)
    (v d : α) :
    mapGetD (mapSet m k v) k' d = if k' = k then v else mapGetD m k' d := by
  unfold mapSet mapGetD
  by_cases hany : (m.any fun p => decide (p.1 = k)) = true
  · rw [if_pos hany, find?_map_rep]
    rcases hf : m.find? (fun p => decide (p.1 = k')) with _ | p
    · have hnone : ∀ x ∈ m, ¬ x.1 = k' := fun x hx => by
        simpa using List.find?_eq_none.mp hf x hx
      have hkk : ¬ k' = k := by
        intro h
        subst h
        rcases List.any_eq_true.mp hany with ⟨x, hx, hxk⟩
        exact hnone x hx (by simpa using hxk)
      rw [hf]
      simp [hkk]
    · have hp : p.1 = k' := by simpa using List.find?_some hf
      rw [hf]
      by_cases hkk : k' = k
      · subst hkk
        simp [hp]
      · have hpk : ¬ p.1 = k := by rw [hp]; exact hkk
        simp [hpk, hkk]
  · rw [if_neg hany, List.find?_append]
    rcases hf : m.find? (fun p => decide (p.1 = k')) with _ | p
    · rw [hf]
      by_cases hkk : k' = k
      · subst hkk
        simp [List.find?]
      · have hkk2 : ¬ k = k' := fun h => hkk h.symm
        simp [List.find?, hkk, hkk2]
    · have hp : p.1 = k' := by simpa using List.find?_some hf
      have hkk : ¬ k' = k := by
        intro h
        subst h
        exact hany (List.any_eq_true.mpr
          ⟨p, List.mem_of_find?_eq_some hf, by simpa using hp⟩)
      rw [hf]
      simp [hkk]

theorem mapGetD_not_mem {α : Type} (m : List (String × α)) (k : String) (d : α)
    (h : ∀ p ∈ m, ¬ p.1 = k) : mapGetD m k d = d := by
  unfold mapGetD
  have hn : m.find? (fun p => decide (p.1 = k)) = none :=
    List.find?_eq_none.mpr (fun x hx => by simpa using h x hx)
  simp [hn]

theorem mapSet_keys {α : Type} (m : List (String × α)) (k : String) (v : α) :
    (mapSet m k v).map Prod.fst =
      if (m.any fun p => decide (p.1 = k)) = true then m.map Prod.fst
      else m.map Prod.fst ++ [k] := by
  unfold mapSet
  by_cases hany : (m.any fun p => decide (p.1 = k)) = true
  · rw [if_pos hany, if_pos hany, List.map_map]
    exact List.map_congr_left (fun p _ => rep_key k v p)
  · rw [if_neg hany, if_neg hany]
    simp

theorem mapSet_nodupKeys {α : Type} (m : List (String × α)) (k : String)
    (v : α) (h : (m.map Prod.fst).Nodup) :
    ((mapSet m k v).map Prod.fst).Nodup := by
  rw [mapSet_keys]
  by_cases hany : (m.any fun p => decide (p.1 = k)) = true
  · simpa [hany] using h
  · rw [if_neg hany]
    have hk : k ∉ m.map Prod.fst := by
      intro hmem
      rcases List.mem_map.mp hmem with ⟨p, hp, hpk⟩
      exact hany (List.any_eq_true.mpr ⟨p, hp, by simpa using hpk⟩)
    simp [List.nodup_append, h, hk]

theorem mem_mapSet {α : Type} (m : List (String × α)) (k : String) (v : α)
    (p : String × α) (hp : p ∈ mapSet m k v) : p ∈ m ∨ p = (k, v) := by
  unfold mapSet at hp
  by_cases hany : (m.any fun q => decide (q.1 = k)) = true
  · rw [if_pos hany] at hp
    rcases List.mem_map.mp hp with ⟨q, hq, hqe⟩
    by_cases hqk : q.1 = k
    · right
      rw [← hqe]
      simp [hqk]
    · left
      rw [← hqe]
      simpa [hqk] using hq
  · rw [if_neg hany] at hp
    rcases List.mem_append.mp hp with h | h
    · exact Or.inl h
    · right
      simpa using h

theorem buildDonationMap_fold_spec (ds : List Donation)
    (m : List (String × Donation)) (hm : (m.map Prod.fst).Nodup) :
    (((ds.foldl (fun m d => mapSet m d.donationId d) m).map Prod.fst).Nodup) ∧
    (∀ p ∈ ds.foldl (fun m d => mapSet m d.donationId d) m,
      p ∈ m ∨ (p.2 ∈ ds ∧ p.2.donationId = p.1)) := by
  induction ds generalizing m with
  | nil =>
    refine ⟨hm, fun p hp => Or.inl ?_⟩
    simpa using hp
  | cons d ds ih =>
    obtain ⟨hn, hmem⟩ := ih (mapSet m d.donationId d)
      (mapSet_nodupKeys m d.donationId d hm)
    refine ⟨hn, fun p hp => ?_⟩
    rcases hmem p (by simpa using hp) with h | h
    · rcases mem_mapSet m d.donationId d p h with h' | h'
      · exact Or.inl h'
      · refine Or.inr ⟨?_, ?_⟩ <;> simp [h']
    · exact Or.inr ⟨List.mem_cons_of_mem _ h.1, h.2⟩

theorem buildDonationMap_nodupKeys (ds : List Donation) :
    ((buildDonationMap ds).map Prod.fst).Nodup :=
  (buildDonationMap_fold_spec ds [] (by simp)).1

theorem mem_buildDonationMap (ds : List Donation) (p : String × Donation)
    (hp : p ∈ buildDonationMap ds) : p.2 ∈ ds ∧ p.2.donationId = p.1 := by
  rcases (buildDonationMap_fold_spec ds [] (by simp)).2 p hp with h | h
  · simp at h
  · exact h

theorem buildDonationMap_fold_of_nodup (ds : List Donation)
    (m : List (String × Donation))
    (hdisj : ∀ d ∈ ds, ∀ p ∈ m, ¬ p.1 = d.donationId)
    (hnd : (ds.map (fun d => d.donationId)).Nodup) :
    ds.foldl (fun m d => mapSet m d.donationId d) m =
      m ++ ds.map (fun d => (d.donationId, d)) := by
  induction ds generalizing m with
  | nil => simp
  | cons d ds ih =>
    have hset : mapSet m d.donationId d = m ++ [(d.donationId, d)] := by
      unfold mapSet
      rw [if_neg]
      intro hany
      rcases List.any_eq_true.mp hany with ⟨p, hp, hpk⟩
      exact hdisj d (by simp) p hp (by simpa using hpk)
    have hnd' : (ds.map (fun d => d.donationId)).Nodup := by
      simpa using hnd.of_cons
    have hdisj' : ∀ d' ∈ ds, ∀ p ∈ m ++ [(d.donationId, d)], ¬ p.1 = d'.donationId := by
      intro d' hd' p hp
      rcases List.mem_append.mp hp with h | h
      · exact hdisj d' (List.mem_cons_of_mem _ hd') p h
      · have hpe : p = (d.donationId, d) := by simpa using h
        rw [hpe]
        intro hcol
        have : d.donationId ∈ ds.map (fun d => d.donationId) :=
          List.mem_map.mpr ⟨d', hd', hcol.symm⟩
        exact (List.nodup_cons.mp hnd).1 this
    calc (d :: ds).foldl (fun m d => mapSet m d.donationId d) m
        = ds.foldl (fun m d => mapSet m d.donationId d) (m ++ [(d.donationId, d)]) := by
          rw [List.foldl_cons, hset]
      _ = (m ++ [(d.donationId, d)]) ++ ds.map (fun d => (d.donationId, d)) :=
          ih (m ++ [(d.donationId, d)]) hdisj' hnd'
      _ = m ++ (d :: ds).map (fun d => (d.donationId, d)) := by simp

theorem buildDonationMap_of_nodup (ds : List Donation)
    (hnd : (ds.map (fun d => d.donationId)).Nodup) :
    buildDonationMap ds = ds.map (fun d => (d.donationId, d)) := by
  have := buildDonationMap_fold_of_nodup ds [] (by simp) hnd
  simpa [buildDonationMap] using this

theorem sumAllocFor_nil (did : String) : sumAllocFor [] did = 0 := rfl

theorem sumAllocFor_cons (a : SpendAllocation) (allocs : List SpendAllocation)
    (did : String) :
    sumAllocFor (a :: allocs) did =
      (if a.donationId = did then a.spendAllocationAmount else 0) +
        sumAllocFor allocs did := by
  by_cases h : a.donationId = did <;>
    simp [sumAllocFor, List.filter_cons, h]

theorem buildSpendMap_fold_spec (allocs : List SpendAllocation)
    (m : List (String × ℚ)) :
    ∀ did, mapGetD
        (allocs.foldl
          (fun m a =>
            mapSet m a.donationId (mapGetD m a.donationId 0 + a.spendAllocationAmount))
          m)
        did 0 =
      mapGetD m did 0 + sumAllocFor allocs did := by
  induction allocs generalizing m with
  | nil => simp [sumAllocFor]
  | cons a allocs ih =>
    intro did
    rw [List.foldl_cons, ih, sumAllocFor_cons, mapGetD_mapSet]
    by_cases h : did = a.donationId
    · subst h
      simp [add_assoc]
    · have h2 : ¬ a.donationId = did := fun he => h he.symm
      simp [h, h2]

theorem mapGetD_buildSpendMap (allocs : List SpendAllocation) (did : String) :
    mapGetD (buildSpendMap allocs) did 0 = sumAllocFor allocs did := by
  have := buildSpendMap_fold_spec allocs [] did
  simpa [buildSpendMap, mapGetD] using this

theorem sum_indicator_of_mem (ids : List String) (x : String) (q : ℚ)
    (hmem : x ∈ ids) (hnd : ids.Nodup) :
    (ids.map (fun did => if x = did then q else 0)).sum = q := by
  induction ids with
  | nil => simp at hmem
  | cons i ids ih =>
    rcases List.mem_cons.mp hmem with h | h
    · subst h
      have hx : x ∉ ids := (List.nodup_cons.mp hnd).1
      have hzero : (ids.map (fun did => if x = did then q else 0)).sum = 0 := by
        rw [List.sum_eq_zero]
        intro y hy
        rcases List.mem_map.mp hy with ⟨did, hdid, hye⟩
        have : ¬ x = did := fun he => hx (he ▸ hdid)
        simpa [this] using hye.symm
      simp [hzero]
    · have hne : ¬ x = i := by
        intro he
        subst he
        exact (List.nodup_cons.mp hnd).1 h
      simp [hne, ih h (List.nodup_cons.mp hnd).2]

theorem list_sum_map_add {α : Type} (l : List α) (f g : α → ℚ) :
    (l.map (fun x => f x + g x)).sum = (l.map f).sum + (l.map g).sum := by
  induction l with
  | nil => simp
  | cons x l ih => simp [ih]; ring

theorem sum_sumAllocFor (allocs : List SpendAllocation) (ids : List String)
    (hnd : ids.Nodup) (hcover : ∀ a ∈ allocs, a.donationId ∈ ids) :
    (ids.map (fun did => sumAllocFor allocs did)).sum =
      totalSpendAmount allocs := by
  induction allocs with
  | nil => simp [sumAllocFor, totalSpendAmount]
  | cons a allocs ih =>
    have hmapeq : ids.map (fun did => sumAllocFor (a :: allocs) did) =
        ids.map (fun did =>
          (if a.donationId = did then a.spendAllocationAmount else 0) +
            sumAllocFor allocs did) :=
      List.map_congr_left (fun did _ => sumAllocFor_cons a allocs did)
    rw [hmapeq, list_sum_map_add,
      sum_indicator_of_mem ids a.donationId a.spendAllocationAmount
        (hcover a (by simp)) hnd,
      ih (fun b hb => hcover b (List.mem_cons_of_mem _ hb))]
    simp [totalSpendAmount]

/-!
Write-set utilities.
-/

theorem allocationsOf_append (ws₁ ws₂ : List Write) :
    allocationsOf (ws₁ ++ ws₂) = allocationsOf ws₁ ++ allocationsOf ws₂ := by
  simp [allocationsOf, List.filterMap_append]

theorem allocationsOf_cons_alloc (tx : String) (sp : SpendRec)
    (ngo did : String) (amt : ℚ) (ctr : ℕ) (ws : List Write) :
    allocationsOf (allocRecord tx sp ngo did amt ctr :: ws) =
      allocRecordData tx sp ngo did amt ctr :: allocationsOf ws := rfl

theorem sumAllocWrites_eq (ws : List Write) :
    sumAllocWrites ws = ((allocationsOf ws).map
      (fun a => a.spendAllocationAmount)).sum := rfl

theorem sumAllocWritesFor_eq (ws : List Write) (did : String) :
    sumAllocWritesFor ws did = sumAllocFor (allocationsOf ws) did := rfl

theorem sumAllocWrites_cons_alloc (tx : String) (sp : SpendRec)
    (ngo did : String) (amt : ℚ) (ctr : ℕ) (ws : List Write) :
    sumAllocWrites (allocRecord tx sp ngo did amt ctr :: ws) =
      amt + sumAllocWrites ws := by
  simp [sumAllocWrites_eq, allocationsOf_cons_alloc, allocRecordData]

theorem sumAllocWritesFor_cons_alloc (tx : String) (sp : SpendRec)
    (ngo did did' : String) (amt : ℚ) (ctr : ℕ) (ws : List Write) :
    sumAllocWritesFor (allocRecord tx sp ngo did amt ctr :: ws) did' =
      (if did = did' then amt else 0) + sumAllocWritesFor ws did' := by
  rw [sumAllocWritesFor_eq, allocationsOf_cons_alloc, sumAllocFor_cons,
    sumAllocWritesFor_eq]
  simp [allocRecordData]

theorem sumAllocFor_eq_zero (allocs : List SpendAllocation) (did : String)
    (h : ∀ a ∈ allocs, ¬ a.donationId = did) : sumAllocFor allocs did = 0 := by
  unfold sumAllocFor
  have : allocs.filter (fun a => a.donationId = did) = [] := by
    rw [List.filter_eq_nil_iff]
    intro a ha
    simpa using h a ha
  simp [this]

theorem surplus_congr (dons : List (String × Donation))
    (dsm dsm' : List (String × ℚ))
    (h : ∀ p ∈ dons, mapGetD dsm' p.1 0 = mapGetD dsm p.1 0) :
    surplus dons dsm' = surplus dons dsm := by
  unfold surplus
  congr 1
  exact List.map_congr_left (fun p hp => by rw [h p hp])

theorem countEligible_congr (dons : List (String × Donation))
    (dsm dsm' : List (String × ℚ))
    (h : ∀ p ∈ dons, mapGetD dsm' p.1 0 = mapGetD dsm p.1 0) :
    countEligible dons dsm' = countEligible dons dsm := by
  unfold countEligible
  congr 1
  exact List.filter_congr (fun p hp => by rw [h p hp])

theorem surplus_nonneg (dons : List (String × Donation))
    (dsm : List (String × ℚ)) : 0 ≤ surplus dons dsm := by
  unfold surplus
  apply List.sum_nonneg
  intro x hx
  rcases List.mem_map.mp hx with ⟨p, _, he⟩
  rw [← he]
  exact le_max_left 0 _

theorem countEligible_pos_of_surplus_pos (dons : List (String × Donation))
    (dsm : List (String × ℚ)) (h : 0 < surplus dons dsm) :
    0 < countEligible dons dsm := by
  by_contra hc
  push_neg at hc
  have hzero : countEligible dons dsm = 0 := Nat.le_zero.mp hc
  have : surplus dons dsm = 0 := by
    unfold surplus
    rw [List.sum_eq_zero]
    intro x hx
    rcases List.mem_map.mp hx with ⟨p, hp, he⟩
    have hnot : ¬ 0 < p.2.donationAmount - mapGetD dsm p.1 0 := by
      intro hpos
      have hmem : p ∈ dons.filter
          (fun p => decide (0 < p.2.donationAmount - mapGetD dsm p.1 0)) :=
        List.mem_filter.mpr ⟨hp, by simpa using hpos⟩
      unfold countEligible at hzero
      rw [List.length_eq_zero] at hzero
      rw [hzero] at hmem
      simp at hmem
    rw [← he, max_eq_left (by linarith)]
  linarith

/-!
Lemmas about one pass of the allocation loop.
-/

theorem allocPass_writes_mem (tx : String) (sp : SpendRec) (ngo : String)
    (share : ℚ) (dons : List (String × Donation)) :
    ∀ amount dsm ctr,
      ∀ w ∈ (allocPass tx sp ngo share dons amount dsm ctr).writes,
        ∃ did d amt k, (did, d) ∈ dons ∧ w = allocRecord tx sp ngo did amt k := by
  induction dons with
  | nil =>
    intro amount dsm ctr w hw
    simp [allocPass] at hw
  | cons hd rest ih =>
    rcases hd with ⟨did, d⟩
    intro amount dsm ctr w hw
    by_cases h1 : share ≤ d.donationAmount - mapGetD dsm did 0
    · simp only [allocPass, h1, if_pos] at hw
      rcases List.mem_cons.mp hw with h | h
      · exact ⟨did, d, share, ctr, by simp, h⟩
      · rcases ih _ _ _ w h with ⟨did', d', amt', k', hmem, he⟩
        exact ⟨did', d', amt', k', List.mem_cons_of_mem _ hmem, he⟩
    · by_cases h2 : 0 < d.donationAmount - mapGetD dsm did 0
      · simp only [allocPass, h1, h2, if_neg, if_pos, not_false_iff] at hw
        rcases List.mem_cons.mp hw with h | h
        · exact ⟨did, d, _, ctr, by simp, h⟩
        · rcases ih _ _ _ w h with ⟨did', d', amt', k', hmem, he⟩
          exact ⟨did', d', amt', k', List.mem_cons_of_mem _ hmem, he⟩
      · simp only [allocPass, h1, h2, if_neg, not_false_iff] at hw
        rcases ih _ _ _ w hw with ⟨did', d', amt', k', hmem, he⟩
        exact ⟨did', d', amt', k', List.mem_cons_of_mem _ hmem, he⟩

theorem allocPass_sum (tx : String) (sp : SpendRec) (ngo : String)
    (share : ℚ) (dons : List (String × Donation)) :
    ∀ amount dsm ctr,
      sumAllocWrites (allocPass tx sp ngo share dons amount dsm ctr).writes =
        amount - (allocPass tx sp ngo share dons amount dsm ctr).amount := by
  induction dons with
  | nil =>
    intro amount dsm ctr
    simp [allocPass, sumAllocWrites, allocationsOf]
  | cons hd rest ih =>
    rcases hd with ⟨did, d⟩
    intro amount dsm ctr
    by_cases h1 : share ≤ d.donationAmount - mapGetD dsm did 0
    · simp only [allocPass, h1, if_pos]
      rw [sumAllocWrites_cons_alloc, ih]
      ring
    · by_cases h2 : 0 < d.donationAmount - mapGetD dsm did 0
      · simp only [allocPass, h1, h2, if_neg, if_pos, not_false_iff]
        rw [sumAllocWrites_cons_alloc, ih]
        ring
      · simp only [allocPass, h1, h2, if_neg, not_false_iff]
        exact ih _ _ _

theorem countEligible_cons (did : String) (d : Donation)
    (rest : List (String × Donation)) (dsm : List (String × ℚ)) :
    countEligible ((did, d) :: rest) dsm =
      (if 0 < d.donationAmount - mapGetD dsm did 0 then 1 else 0) +
        countEligible rest dsm := by
  by_cases h : 0 < d.donationAmount - mapGetD dsm did 0
  · have h' : mapGetD dsm did 0 < d.donationAmount := sub_pos.mp h
    simp [countEligible, List.filter_cons, h, h', Nat.add_comm]
  · have h' : ¬ mapGetD dsm did 0 < d.donationAmount := fun hc => h (sub_pos.mpr hc)
    simp [countEligible, List.filter_cons, h, h']

theorem surplus_cons (did : String) (d : Donation)
    (rest : List (String × Donation)) (dsm : List (String × ℚ)) :
    surplus ((did, d) :: rest) dsm =
      max 0 (d.donationAmount - mapGetD dsm did 0) + surplus rest dsm := by
  simp [surplus]

theorem allocIds_cons_alloc (tx : String) (sp : SpendRec) (ngo did : String)
    (amt : ℚ) (ctr : ℕ) (ws : List Write) :
    allocIds (allocRecord tx sp ngo did amt ctr :: ws) =
      (tx ++ "-" ++ Nat.repr ctr) :: allocIds ws := by
  simp [allocIds, allocationsOf_cons_alloc, allocRecordData]

theorem allocPass_allocs_mem (tx : String) (sp : SpendRec) (ngo : String)
    (share : ℚ) (dons : List (String × Donation)) (amount : ℚ)
    (dsm : List (String × ℚ)) (ctr : ℕ) :
    ∀ a ∈ allocationsOf (allocPass tx sp ngo share dons amount dsm ctr).writes,
      a.donationId ∈ dons.map Prod.fst := by
  intro a ha
  rcases List.mem_filterMap.mp ha with ⟨w, hw, hwa⟩
  rcases allocPass_writes_mem tx sp ngo share dons amount dsm ctr w hw with
    ⟨did, d, amt, k, hmem, he⟩
  have : a = allocRecordData tx sp ngo did amt k := by
    rw [he] at hwa
    simp [allocRecord] at hwa
    exact hwa.symm
  rw [this]
  exact List.mem_map.mpr ⟨(did, d), hmem, rfl⟩

theorem allocPass_amount_bounds (tx : String) (sp : SpendRec) (ngo : String)
    (share : ℚ) (hs : 0 < share) :
    ∀ (dons : List (String × Donation)), (dons.map Prod.fst).Nodup →
    ∀ amount dsm ctr,
      amount - (countEligible dons dsm : ℚ) * share ≤
          (allocPass tx sp ngo share dons amount dsm ctr).amount ∧
        (allocPass tx sp ngo share dons amount dsm ctr).amount ≤ amount := by
  intro dons
  induction dons with
  | nil =>
    intro _ amount dsm ctr
    simp [allocPass, countEligible]
  | cons hd rest ih =>
    rcases hd with ⟨did, d⟩
    intro hnd amount dsm ctr
    rw [List.map_cons, List.nodup_cons] at hnd
    obtain ⟨hnotmem, hrest⟩ := hnd
    have hne : ∀ p ∈ rest, ¬ p.1 = did := by
      intro p hp he
      exact hnotmem (he ▸ List.mem_map.mpr ⟨p, hp, rfl⟩)
    have hcong : ∀ v : ℚ, ∀ p ∈ rest,
        mapGetD (mapSet dsm did v) p.1 0 = mapGetD dsm p.1 0 := by
      intro v p hp
      rw [mapGetD_mapSet, if_neg (hne p hp)]
    by_cases h1 : share ≤ d.donationAmount - mapGetD dsm did 0
    · have helig : 0 < d.donationAmount - mapGetD dsm did 0 := lt_of_lt_of_le hs h1
      obtain ⟨ihl, ihu⟩ := ih hrest (amount - share)
        (mapSet dsm did (mapGetD dsm did 0 + share)) (ctr + 1)
      rw [countEligible_congr rest dsm _ (hcong _)] at ihl
      simp only [allocPass, h1, if_pos]
      constructor
      · rw [countEligible_cons, if_pos helig]
        push_cast
        linarith
      · linarith
    · by_cases h2 : 0 < d.donationAmount - mapGetD dsm did 0
      · obtain ⟨ihl, ihu⟩ := ih hrest (amount - (d.donationAmount - mapGetD dsm did 0))
          (mapSet dsm did (mapGetD dsm did 0 + (d.donationAmount - mapGetD dsm did 0))) (ctr + 1)
        rw [countEligible_congr rest dsm _ (hcong _)] at ihl
        simp only [allocPass, h1, h2, if_neg, if_pos, not_false_iff]
        constructor
        · rw [countEligible_cons, if_pos h2]
          push_cast
          nlinarith [lt_of_not_le h1]
        · linarith
      · obtain ⟨ihl, ihu⟩ := ih hrest amount dsm ctr
        simp only [allocPass, h1, h2, if_neg, not_false_iff]
        rw [countEligible_cons, if_neg h2]
        constructor
        · push_cast
          linarith
        · exact ihu

theorem allocPass_writes_pos (tx : String) (sp : SpendRec) (ngo : String)
    (share : ℚ) (hs : 0 < share) :
    ∀ (dons : List (String × Donation)) amount dsm ctr,
      ∀ a ∈ allocationsOf (allocPass tx sp ngo share dons amount dsm ctr).writes,
        0 < a.spendAllocationAmount := by
  intro dons
  induction dons with
  | nil =>
    intro amount dsm ctr a ha
    simp [allocPass, allocationsOf] at ha
  | cons hd rest ih =>
    rcases hd with ⟨did, d⟩
    intro amount dsm ctr a ha
    by_cases h1 : share ≤ d.donationAmount - mapGetD dsm did 0
    · simp only [allocPass, h1, if_pos] at ha
      rw [allocationsOf_cons_alloc] at ha
      rcases List.mem_cons.mp ha with h | h
      · rw [h]
        simpa [allocRecordData] using hs
      · exact ih _ _ _ a h
    · by_cases h2 : 0 < d.donationAmount - mapGetD dsm did 0
      · simp only [allocPass, h1, h2, if_neg, if_pos, not_false_iff] at ha
        rw [allocationsOf_cons_alloc] at ha
        rcases List.mem_cons.mp ha with h | h
        · rw [h]
          simpa [allocRecordData] using h2
        · exact ih _ _ _ a h
      · simp only [allocPass, h1, h2, if_neg, not_false_iff] at ha
        exact ih _ _ _ a ha

theorem allocPass_ids (tx : String) (sp : SpendRec) (ngo : String)
    (share : ℚ) :
    ∀ (dons : List (String × Donation)) amount dsm ctr,
      (allocPass tx sp ngo share dons amount dsm ctr).ctr =
          ctr + (allocationsOf
            (allocPass tx sp ngo share dons amount dsm ctr).writes).length ∧
        allocIds (allocPass tx sp ngo share dons amount dsm ctr).writes =
          (List.range' ctr (allocationsOf
            (allocPass tx sp ngo share dons amount dsm ctr).writes).length).map
            (fun k => tx ++ "-" ++ Nat.repr k) := by
  intro dons
  induction dons with
  | nil =>
    intro amount dsm ctr
    simp [allocPass, allocationsOf, allocIds]
  | cons hd rest ih =>
    rcases hd with ⟨did, d⟩
    intro amount dsm ctr
    by_cases h1 : share ≤ d.donationAmount - mapGetD dsm did 0
    · obtain ⟨ihc, ihi⟩ := ih (amount - share)
        (mapSet dsm did (mapGetD dsm did 0 + share)) (ctr + 1)
      simp only [allocPass, h1, if_pos]
      rw [allocationsOf_cons_alloc]
      constructor
      · rw [ihc]
        simp [Nat.add_comm, Nat.add_assoc, Nat.add_left_comm]
      · rw [allocIds_cons_alloc, ihi, List.length_cons, List.range'_succ]
        simp
    · by_cases h2 : 0 < d.donationAmount - mapGetD dsm did 0
      · obtain ⟨ihc, ihi⟩ := ih (amount - (d.donationAmount - mapGetD dsm did 0))
          (mapSet dsm did (mapGetD dsm did 0 + (d.donationAmount - mapGetD dsm did 0)))
          (ctr + 1)
        simp only [allocPass, h1, h2, if_neg, if_pos, not_false_iff]
        rw [allocationsOf_cons_alloc]
        constructor
        · rw [ihc]
          simp [Nat.add_comm, Nat.add_assoc, Nat.add_left_comm]
        · rw [allocIds_cons_alloc, ihi, List.length_cons, List.range'_succ]
          simp
      · simp only [allocPass, h1, h2, if_neg, not_false_iff]
        exact ih amount dsm ctr

theorem allocPass_dsm (tx : String) (sp : SpendRec) (ngo : String)
    (share : ℚ) :
    ∀ (dons : List (String × Donation)), (dons.map Prod.fst).Nodup →
    ∀ amount dsm ctr did,
      mapGetD (allocPass tx sp ngo share dons amount dsm ctr).dsm did 0 =
        mapGetD dsm did 0 +
          sumAllocWritesFor
            (allocPass tx sp ngo share dons amount dsm ctr).writes did := by
  intro dons
  induction dons with
  | nil =>
    intro _ amount dsm ctr did
    simp [allocPass, sumAllocWritesFor_eq, allocationsOf, sumAllocFor]
  | cons hd rest ih =>
    rcases hd with ⟨did0, d⟩
    intro hnd amount dsm ctr did
    rw [List.map_cons, List.nodup_cons] at hnd
    obtain ⟨hnotmem, hrest⟩ := hnd
    have hzero : ∀ amount' dsm' ctr',
        sumAllocWritesFor
          (allocPass tx sp ngo share rest amount' dsm' ctr').writes did0 = 0 := by
      intro amount' dsm' ctr'
      rw [sumAllocWritesFor_eq]
      apply sumAllocFor_eq_zero
      intro a ha hcol
      exact hnotmem (hcol ▸ allocPass_allocs_mem tx sp ngo share rest amount' dsm' ctr' a ha)
    by_cases h1 : share ≤ d.donationAmount - mapGetD dsm did0 0
    · simp only [allocPass, h1, if_pos]
      rw [sumAllocWritesFor_cons_alloc, ih hrest]
      by_cases hdd : did0 = did
      · subst hdd
        rw [hzero, mapGetD_mapSet, if_pos rfl]
        simp
      · rw [if_neg hdd, mapGetD_mapSet, if_neg (fun h => hdd h.symm)]
        ring
    · by_cases h2 : 0 < d.donationAmount - mapGetD dsm did0 0
      · simp only [allocPass, h1, h2, if_neg, if_pos, not_false_iff]
        rw [sumAllocWritesFor_cons_alloc, ih hrest]
        by_cases hdd : did0 = did
        · subst hdd
          rw [hzero, mapGetD_mapSet, if_pos rfl]
          simp
        · rw [if_neg hdd, mapGetD_mapSet, if_neg (fun h => hdd h.symm)]
          ring
      · simp only [allocPass, h1, h2, if_neg, not_false_iff]
        exact ih hrest amount dsm ctr did

theorem allocPass_surplus (tx : String) (sp : SpendRec) (ngo : String)
    (share : ℚ) (hs : 0 < share) :
    ∀ (dons : List (String × Donation)), (dons.map Prod.fst).Nodup →
    ∀ amount dsm ctr,
      surplus dons (allocPass tx sp ngo share dons amount dsm ctr).dsm =
        surplus dons dsm -
          (amount - (allocPass tx sp ngo share dons amount dsm ctr).amount) := by
  intro dons
  induction dons with
  | nil =>
    intro _ amount dsm ctr
    simp [allocPass, surplus]
  | cons hd rest ih =>
    rcases hd with ⟨did0, d⟩
    intro hnd amount dsm ctr
    rw [List.map_cons, List.nodup_cons] at hnd
    obtain ⟨hnotmem, hrest⟩ := hnd
    have hne : ∀ p ∈ rest, ¬ p.1 = did0 := by
      intro p hp he
      exact hnotmem (he ▸ List.mem_map.mpr ⟨p, hp, rfl⟩)
    have hcong : ∀ v : ℚ, ∀ p ∈ rest,
        mapGetD (mapSet dsm did0 v) p.1 0 = mapGetD dsm p.1 0 := by
      intro v p hp
      rw [mapGetD_mapSet, if_neg (hne p hp)]
    have hzero : ∀ amount' dsm' ctr',
        sumAllocWritesFor
          (allocPass tx sp ngo share rest amount' dsm' ctr').writes did0 = 0 := by
      intro amount' dsm' ctr'
      rw [sumAllocWritesFor_eq]
      apply sumAllocFor_eq_zero
      intro a ha hcol
      exact hnotmem (hcol ▸ allocPass_allocs_mem tx sp ngo share rest amount' dsm' ctr' a ha)
    by_cases h1 : share ≤ d.donationAmount - mapGetD dsm did0 0
    · have helig : 0 < d.donationAmount - mapGetD dsm did0 0 := lt_of_lt_of_le hs h1
      simp only [allocPass, h1, if_pos]
      rw [surplus_cons, surplus_cons,
        allocPass_dsm tx sp ngo share rest hrest _ _ _ did0, hzero,
        mapGetD_mapSet, if_pos rfl,
        ih hrest (amount - share) (mapSet dsm did0 (mapGetD dsm did0 0 + share)) (ctr + 1),
        surplus_congr rest dsm _ (hcong _)]
      rw [max_eq_right (by linarith), max_eq_right (by linarith)]
      ring
    · by_cases h2 : 0 < d.donationAmount - mapGetD dsm did0 0
      · have hlt : d.donationAmount - mapGetD dsm did0 0 < share := lt_of_not_le h1
        simp only [allocPass, h1, h2, if_neg, if_pos, not_false_iff]
        rw [surplus_cons, surplus_cons,
          allocPass_dsm tx sp ngo share rest hrest _ _ _ did0, hzero,
          mapGetD_mapSet, if_pos rfl,
          ih hrest _ (mapSet dsm did0
            (mapGetD dsm did0 0 + (d.donationAmount - mapGetD dsm did0 0))) (ctr + 1),
          surplus_congr rest dsm _ (hcong _)]
        rw [max_eq_right (by linarith), max_eq_right (by linarith)]
        ring
      · simp only [allocPass, h1, h2, if_neg, not_false_iff]
        rw [surplus_cons, surplus_cons,
          allocPass_dsm tx sp ngo share rest hrest _ _ _ did0, hzero,
          ih hrest amount dsm ctr]
        ring

theorem allocPass_bound (tx : String) (sp : SpendRec) (ngo : String)
    (share : ℚ) (hs : 0 < share) :
    ∀ (dons : List (String × Donation)), (dons.map Prod.fst).Nodup →
    ∀ amount dsm ctr did d, (did, d) ∈ dons →
      sumAllocWritesFor (allocPass tx sp ngo share dons amount dsm ctr).writes did ≤
        max 0 (d.donationAmount - mapGetD dsm did 0) := by
  intro dons
  induction dons with
  | nil =>
    intro _ amount dsm ctr did d hmem
    simp at hmem
  | cons hd rest ih =>
    rcases hd with ⟨did0, d0⟩
    intro hnd amount dsm ctr did d hmem
    rw [List.map_cons, List.nodup_cons] at hnd
    obtain ⟨hnotmem, hrest⟩ := hnd
    have hne : ∀ p ∈ rest, ¬ p.1 = did0 := by
      intro p hp he
      exact hnotmem (he ▸ List.mem_map.mpr ⟨p, hp, rfl⟩)
    have hcong : ∀ v : ℚ, ∀ p ∈ rest,
        mapGetD (mapSet dsm did0 v) p.1 0 = mapGetD dsm p.1 0 := by
      intro v p hp
      rw [mapGetD_mapSet, if_neg (hne p hp)]
    have hzero : ∀ amount' dsm' ctr',
        sumAllocWritesFor
          (allocPass tx sp ngo share rest amount' dsm' ctr').writes did0 = 0 := by
      intro amount' dsm' ctr'
      rw [sumAllocWritesFor_eq]
      apply sumAllocFor_eq_zero
      intro a ha hcol
      exact hnotmem (hcol ▸ allocPass_allocs_mem tx sp ngo share rest amount' dsm' ctr' a ha)
    rcases List.mem_cons.mp hmem with hhd | htl
    · have hdid : did = did0 ∧ d = d0 := by
        constructor <;> [exact congrArg Prod.fst hhd; exact congrArg Prod.snd hhd]
      obtain ⟨hdid, hd⟩ := hdid
      subst hdid
      subst hd
      by_cases h1 : share ≤ d.donationAmount - mapGetD dsm did 0
      · simp only [allocPass, h1, if_pos]
        rw [sumAllocWritesFor_cons_alloc, if_pos rfl, hzero,
          max_eq_right (by linarith)]
        linarith
      · by_cases h2 : 0 < d.donationAmount - mapGetD dsm did 0
        · simp only [allocPass, h1, h2, if_neg, if_pos, not_false_iff]
          rw [sumAllocWritesFor_cons_alloc, if_pos rfl, hzero,
            max_eq_right (by linarith)]
          linarith
        · simp only [allocPass, h1, h2, if_neg, not_false_iff]
          rw [hzero]
          exact le_max_left 0 _
    · have hdne : ¬ did0 = did := by
        intro he
        apply hnotmem
        rw [he]
        exact List.mem_map.mpr ⟨(did, d), htl, rfl⟩
      by_cases h1 : share ≤ d0.donationAmount - mapGetD dsm did0 0
      · simp only [allocPass, h1, if_pos]
        rw [sumAllocWritesFor_cons_alloc, if_neg hdne]
        have := ih hrest (amount - share)
          (mapSet dsm did0 (mapGetD dsm did0 0 + share)) (ctr + 1) did d htl
        rw [hcong _ (did, d) htl] at this
        linarith
      · by_cases h2 : 0 < d0.donationAmount - mapGetD dsm did0 0
        · simp only [allocPass, h1, h2, if_neg, if_pos, not_false_iff]
          rw [sumAllocWritesFor_cons_alloc, if_neg hdne]
          have := ih hrest (amount - (d0.donationAmount - mapGetD dsm did0 0))
            (mapSet dsm did0 (mapGetD dsm did0 0 +
              (d0.donationAmount - mapGetD dsm did0 0))) (ctr + 1) did d htl
          rw [hcong _ (did, d) htl] at this
          linarith
        · simp only [allocPass, h1, h2, if_neg, not_false_iff]
          exact ih hrest amount dsm ctr did d htl

/-!
Lemmas about the allocation loop.
-/

theorem sumAllocWrites_append (ws₁ ws₂ : List Write) :
    sumAllocWrites (ws₁ ++ ws₂) = sumAllocWrites ws₁ + sumAllocWrites ws₂ := by
  simp [sumAllocWrites_eq, allocationsOf_append]

theorem sumAllocWritesFor_append (ws₁ ws₂ : List Write) (did : String) :
    sumAllocWritesFor (ws₁ ++ ws₂) did =
      sumAllocWritesFor ws₁ did + sumAllocWritesFor ws₂ did := by
  simp [sumAllocWritesFor_eq, allocationsOf_append, sumAllocFor, List.filter_append]

theorem allocIds_append (ws₁ ws₂ : List Write) :
    allocIds (ws₁ ++ ws₂) = allocIds ws₁ ++ allocIds ws₂ := by
  simp [allocIds, allocationsOf_append]

theorem sumAllocFor_nonneg (allocs : List SpendAllocation) (did : String)
    (h : ∀ a ∈ allocs, 0 ≤ a.spendAllocationAmount) :
    0 ≤ sumAllocFor allocs did := by
  unfold sumAllocFor
  apply List.sum_nonneg
  intro x hx
  rcases List.mem_map.mp hx with ⟨a, ha, he⟩
  rw [← he]
  exact h a (List.mem_of_mem_filter ha)

theorem max_shift_le (x y : ℚ) (hx : 0 ≤ x) (hxy : x ≤ max 0 y) :
    x + max 0 (y - x) ≤ max 0 y := by
  rcases le_total y x with h | h
  · rw [max_eq_left (by linarith)]
    simpa using hxy
  · rw [max_eq_right (by linarith), max_eq_right (by linarith)]
    linarith

theorem allocLoop_err_cases (tx : String) (sp : SpendRec) (ngo : String)
    (dons : List (String × Donation)) :
    ∀ fuel amount dsm ctr e,
      (allocLoop tx sp ngo dons fuel amount dsm ctr).err = some e →
      e = .fatalSpendAmount ∨ e = .fatalNumberOfDonations ∨
        e = .fatalSpendPerDonation ∨ e = .outOfFuel := by
  intro fuel
  induction fuel with
  | zero =>
    intro amount dsm ctr e he
    simp [allocLoop] at he
    simp [← he]
  | succ fuel ih =>
    intro amount dsm ctr e he
    by_cases h0 : amount ≤ 0
    · simp [allocLoop, h0] at he
    · rw [show allocLoop tx sp ngo dons (fuel + 1) amount dsm ctr =
        (if amount ≤ 0 then ⟨[], none⟩ else
          if amount = 0 then ⟨[], some .fatalSpendAmount⟩
          else if countEligible dons dsm = 0 then ⟨[], some .fatalNumberOfDonations⟩
          else if amount / (countEligible dons dsm : ℚ) = 0 then
            ⟨[], some .fatalSpendPerDonation⟩
          else
            let p := allocPass tx sp ngo (amount / (countEligible dons dsm : ℚ))
              dons amount dsm ctr
            let next := allocLoop tx sp ngo dons fuel p.amount p.dsm p.ctr
            ⟨p.writes ++ next.writes, next.err⟩) from rfl] at he
      rw [if_neg h0] at he
      by_cases h1 : amount = 0
      · rw [if_pos h1] at he
        simp at he
        simp [← he]
      · rw [if_neg h1] at he
        by_cases h2 : countEligible dons dsm = 0
        · rw [if_pos h2] at he
          simp at he
          simp [← he]
        · rw [if_neg h2] at he
          by_cases h3 : amount / (countEligible dons dsm : ℚ) = 0
          · rw [if_pos h3] at he
            simp at he
            simp [← he]
          · rw [if_neg h3] at he
            exact ih _ _ _ e he

theorem allocLoop_succ (tx : String) (sp : SpendRec) (ngo : String)
    (dons : List (String × Donation)) (fuel : ℕ) (amount : ℚ)
    (dsm : List (String × ℚ)) (ctr : ℕ) :
    allocLoop tx sp ngo dons (fuel + 1) amount dsm ctr =
      if amount ≤ 0 then ⟨[], none⟩
      else if amount = 0 then ⟨[], some .fatalSpendAmount⟩
      else if countEligible dons dsm = 0 then ⟨[], some .fatalNumberOfDonations⟩
      else if amount / (countEligible dons dsm : ℚ) = 0 then
        ⟨[], some .fatalSpendPerDonation⟩
      else
        let p := allocPass tx sp ngo (amount / (countEligible dons dsm : ℚ))
          dons amount dsm ctr
        let next := allocLoop tx sp ngo dons fuel p.amount p.dsm p.ctr
        ⟨p.writes ++ next.writes, next.err⟩ := rfl

theorem share_pos (amount : ℚ) (n : ℕ) (hpos : 0 < amount) (hn : n ≠ 0) :
    0 < amount / (n : ℚ) := by
  apply div_pos hpos
  exact_mod_cast Nat.pos_of_ne_zero hn

theorem allocLoop_sum (tx : String) (sp : SpendRec) (ngo : String)
    (dons : List (String × Donation)) (hnd : (dons.map Prod.fst).Nodup) :
    ∀ fuel amount dsm ctr, 0 ≤ amount →
      (allocLoop tx sp ngo dons fuel amount dsm ctr).err = none →
      sumAllocWrites (allocLoop tx sp ngo dons fuel amount dsm ctr).writes =
        amount := by
  intro fuel
  induction fuel with
  | zero =>
    intro amount dsm ctr _ he
    simp [allocLoop] at he
  | succ fuel ih =>
    intro amount dsm ctr hnn he
    rw [allocLoop_succ] at he ⊢
    by_cases h0 : amount ≤ 0
    · rw [if_pos h0] at he ⊢
      have : amount = 0 := le_antisymm h0 hnn
      simp [sumAllocWrites_eq, allocationsOf, this]
    · have hpos : 0 < amount := lt_of_not_le h0
      rw [if_neg h0] at he ⊢
      rw [if_neg (ne_of_gt hpos)] at he ⊢
      by_cases h2 : countEligible dons dsm = 0
      · rw [if_pos h2] at he
        simp at he
      · rw [if_neg h2] at he ⊢
        have hs : 0 < amount / (countEligible dons dsm : ℚ) :=
          share_pos amount _ hpos h2
        rw [if_neg (ne_of_gt hs)] at he ⊢
        simp only at he ⊢
        rw [sumAllocWrites_append]
        have hb := allocPass_amount_bounds tx sp ngo _ hs dons hnd amount dsm ctr
        have hcancel : (countEligible dons dsm : ℚ) *
            (amount / (countEligible dons dsm : ℚ)) = amount := by
          field_simp
        have hnn' : 0 ≤ (allocPass tx sp ngo
            (amount / (countEligible dons dsm : ℚ)) dons amount dsm ctr).amount := by
          have := hb.1
          nlinarith [hb.1]
        rw [allocPass_sum, ih _ _ _ hnn' he]
        ring

theorem allocLoop_ids (tx : String) (sp : SpendRec) (ngo : String)
    (dons : List (String × Donation)) :
    ∀ fuel amount dsm ctr,
      allocIds (allocLoop tx sp ngo dons fuel amount dsm ctr).writes =
        (List.range' ctr (allocationsOf
          (allocLoop tx sp ngo dons fuel amount dsm ctr).writes).length).map
          (fun k => tx ++ "-" ++ Nat.repr k) := by
  intro fuel
  induction fuel with
  | zero =>
    intro amount dsm ctr
    simp [allocLoop, allocIds, allocationsOf]
  | succ fuel ih =>
    intro amount dsm ctr
    rw [allocLoop_succ]
    by_cases h0 : amount ≤ 0
    · rw [if_pos h0]
      simp [allocIds, allocationsOf]
    · rw [if_neg h0, if_neg (ne_of_gt (lt_of_not_le h0))]
      by_cases h2 : countEligible dons dsm = 0
      · rw [if_pos h2]
        simp [allocIds, allocationsOf]
      · have hs : 0 < amount / (countEligible dons dsm : ℚ) :=
          share_pos amount _ (lt_of_not_le h0) h2
        rw [if_neg h2, if_neg (ne_of_gt hs)]
        simp only
        rw [allocIds_append, allocationsOf_append, List.length_append]
        obtain ⟨hctr, hids⟩ := allocPass_ids tx sp ngo
          (amount / (countEligible dons dsm : ℚ)) dons amount dsm ctr
        rw [hids, ih, hctr, ← List.map_append, List.range'_append_1, Nat.add_comm]

theorem allocLoop_writes_mem (tx : String) (sp : SpendRec) (ngo : String)
    (dons : List (String × Donation)) :
    ∀ fuel amount dsm ctr,
      ∀ w ∈ (allocLoop tx sp ngo dons fuel amount dsm ctr).writes,
        ∃ did d amt k, (did, d) ∈ dons ∧ w = allocRecord tx sp ngo did amt k := by
  intro fuel
  induction fuel with
  | zero =>
    intro amount dsm ctr w hw
    simp [allocLoop] at hw
  | succ fuel ih =>
    intro amount dsm ctr w hw
    rw [allocLoop_succ] at hw
    by_cases h0 : amount ≤ 0
    · rw [if_pos h0] at hw
      simp at hw
    · rw [if_neg h0, if_neg (ne_of_gt (lt_of_not_le h0))] at hw
      by_cases h2 : countEligible dons dsm = 0
      · rw [if_pos h2] at hw
        simp at hw
      · have hs : 0 < amount / (countEligible dons dsm : ℚ) :=
          share_pos amount _ (lt_of_not_le h0) h2
        rw [if_neg h2, if_neg (ne_of_gt hs)] at hw
        simp only at hw
        rcases List.mem_append.mp hw with h | h
        · exact allocPass_writes_mem tx sp ngo _ dons amount dsm ctr w h
        · exact ih _ _ _ w h

theorem allocLoop_allocs_mem (tx : String) (sp : SpendRec) (ngo : String)
    (dons : List (String × Donation)) (fuel : ℕ) (amount : ℚ)
    (dsm : List (String × ℚ)) (ctr : ℕ) :
    ∀ a ∈ allocationsOf (allocLoop tx sp ngo dons fuel amount dsm ctr).writes,
      a.donationId ∈ dons.map Prod.fst := by
  intro a ha
  rcases List.mem_filterMap.mp ha with ⟨w, hw, hwa⟩
  rcases allocLoop_writes_mem tx sp ngo dons fuel amount dsm ctr w hw with
    ⟨did, d, amt, k, hmem, he⟩
  have : a = allocRecordData tx sp ngo did amt k := by
    rw [he] at hwa
    simp [allocRecord] at hwa
    exact hwa.symm
  rw [this]
  exact List.mem_map.mpr ⟨(did, d), hmem, rfl⟩

theorem allocLoop_writes_pos (tx : String) (sp : SpendRec) (ngo : String)
    (dons : List (String × Donation)) :
    ∀ fuel amount dsm ctr,
      ∀ a ∈ allocationsOf (allocLoop tx sp ngo dons fuel amount dsm ctr).writes,
        0 < a.spendAllocationAmount := by
  intro fuel
  induction fuel with
  | zero =>
    intro amount dsm ctr a ha
    simp [allocLoop, allocationsOf] at ha
  | succ fuel ih =>
    intro amount dsm ctr a ha
    rw [allocLoop_succ] at ha
    by_cases h0 : amount ≤ 0
    · rw [if_pos h0] at ha
      simp [allocationsOf] at ha
    · rw [if_neg h0, if_neg (ne_of_gt (lt_of_not_le h0))] at ha
      by_cases h2 : countEligible dons dsm = 0
      · rw [if_pos h2] at ha
        simp [allocationsOf] at ha
      · have hs : 0 < amount / (countEligible dons dsm : ℚ) :=
          share_pos amount _ (lt_of_not_le h0) h2
        rw [if_neg h2, if_neg (ne_of_gt hs)] at ha
        simp only at ha
        rw [allocationsOf_append] at ha
        rcases List.mem_append.mp ha with h | h
        · exact allocPass_writes_pos tx sp ngo _ hs dons amount dsm ctr a h
        · exact ih _ _ _ a h

theorem allocLoop_bound (tx : String) (sp : SpendRec) (ngo : String)
    (dons : List (String × Donation)) (hnd : (dons.map Prod.fst).Nodup) :
    ∀ fuel amount dsm ctr did d, (did, d) ∈ dons →
      sumAllocWritesFor (allocLoop tx sp ngo dons fuel amount dsm ctr).writes did ≤
        max 0 (d.donationAmount - mapGetD dsm did 0) := by
  intro fuel
  induction fuel with
  | zero =>
    intro amount dsm ctr did d _
    simp [allocLoop, sumAllocWritesFor_eq, allocationsOf, sumAllocFor]
  | succ fuel ih =>
    intro amount dsm ctr did d hmem
    rw [allocLoop_succ]
    by_cases h0 : amount ≤ 0
    · rw [if_pos h0]
      simp [sumAllocWritesFor_eq, allocationsOf, sumAllocFor]
    · rw [if_neg h0, if_neg (ne_of_gt (lt_of_not_le h0))]
      by_cases h2 : countEligible dons dsm = 0
      · rw [if_pos h2]
        simp [sumAllocWritesFor_eq, allocationsOf, sumAllocFor]
      · have hs : 0 < amount / (countEligible dons dsm : ℚ) :=
          share_pos amount _ (lt_of_not_le h0) h2
        rw [if_neg h2, if_neg (ne_of_gt hs)]
        simp only
        rw [sumAllocWritesFor_append]
        have hx : sumAllocWritesFor (allocPass tx sp ngo
            (amount / (countEligible dons dsm : ℚ)) dons amount dsm ctr).writes did ≤
            max 0 (d.donationAmount - mapGetD dsm did 0) :=
          allocPass_bound tx sp ngo _ hs dons hnd amount dsm ctr did d hmem
        have hx0 : 0 ≤ sumAllocWritesFor (allocPass tx sp ngo
            (amount / (countEligible dons dsm : ℚ)) dons amount dsm ctr).writes did := by
          rw [sumAllocWritesFor_eq]
          apply sumAllocFor_nonneg
          intro a ha
          exact le_of_lt (allocPass_writes_pos tx sp ngo _ hs dons amount dsm ctr a ha)
        have hrec := ih (allocPass tx sp ngo
            (amount / (countEligible dons dsm : ℚ)) dons amount dsm ctr).amount
          (allocPass tx sp ngo
            (amount / (countEligible dons dsm : ℚ)) dons amount dsm ctr).dsm
          (allocPass tx sp ngo
            (amount / (countEligible dons dsm : ℚ)) dons amount dsm ctr).ctr
          did d hmem
        rw [allocPass_dsm tx sp ngo _ dons hnd amount dsm ctr did] at hrec
        have := max_shift_le _ (d.donationAmount - mapGetD dsm did 0) hx0 hx
        have harr : d.donationAmount - (mapGetD dsm did 0 +
            sumAllocWritesFor (allocPass tx sp ngo
              (amount / (countEligible dons dsm : ℚ)) dons amount dsm ctr).writes did) =
            d.donationAmount - mapGetD dsm did 0 -
              sumAllocWritesFor (allocPass tx sp ngo
                (amount / (countEligible dons dsm : ℚ)) dons amount dsm ctr).writes did := by
          ring
        rw [harr] at hrec
        linarith

theorem allocLoop_no_fatal (tx : String) (sp : SpendRec) (ngo : String)
    (dons : List (String × Donation)) (hnd : (dons.map Prod.fst).Nodup) :
    ∀ fuel amount dsm ctr, amount ≤ surplus dons dsm →
      (allocLoop tx sp ngo dons fuel amount dsm ctr).err ≠
        some .fatalNumberOfDonations := by
  intro fuel
  induction fuel with
  | zero =>
    intro amount dsm ctr _ he
    simp [allocLoop] at he
  | succ fuel ih =>
    intro amount dsm ctr hle he
    rw [allocLoop_succ] at he
    by_cases h0 : amount ≤ 0
    · rw [if_pos h0] at he
      simp at he
    · have hpos : 0 < amount := lt_of_not_le h0
      rw [if_neg h0, if_neg (ne_of_gt hpos)] at he
      have hn : countEligible dons dsm ≠ 0 := by
        intro hzero
        have hsur : 0 < surplus dons dsm := lt_of_lt_of_le hpos hle
        have := countEligible_pos_of_surplus_pos dons dsm hsur
        omega
      rw [if_neg hn] at he
      have hs : 0 < amount / (countEligible dons dsm : ℚ) :=
        share_pos amount _ hpos hn
      rw [if_neg (ne_of_gt hs)] at he
      simp only at he
      apply ih (allocPass tx sp ngo
          (amount / (countEligible dons dsm : ℚ)) dons amount dsm ctr).amount
        (allocPass tx sp ngo
          (amount / (countEligible dons dsm : ℚ)) dons amount dsm ctr).dsm
        (allocPass tx sp ngo
          (amount / (countEligible dons dsm : ℚ)) dons amount dsm ctr).ctr
      · rw [allocPass_surplus tx sp ngo _ hs dons hnd amount dsm ctr]
        linarith
      · exact he

/-!
Lemmas about allocateSpend itself.
-/

theorem allocationsOf_cons_spend (k : String) (sp : SpendRec)
    (ws : List Write) :
    allocationsOf ((k, Doc.spend sp) :: ws) = allocationsOf ws := rfl

theorem allocateSpend_run (st : Store) (tx : String) (sp : SpendRec) (fuel : ℕ)
    (hv : validSpendAmount sp.spendAmount = true)
    (hid : ¬ sp.spendId = "")
    (hngo : presentDoc (getDoc st ("ngo" ++ sp.ngoRegistrationNumber)) = true)
    (hfunds : ¬ (totalDonationAmount (donationsForNGO st sp.ngoRegistrationNumber) -
      totalSpendAmount (spendAllocationsForNGO st sp.ngoRegistrationNumber) <
        sp.spendAmount.ratValue)) :
    allocateSpend st tx sp fuel =
      ⟨("spend" ++ sp.spendId, Doc.spend sp) ::
        (allocLoop tx sp sp.ngoRegistrationNumber
          (buildDonationMap (donationsForNGO st sp.ngoRegistrationNumber)) fuel
          sp.spendAmount.ratValue
          (buildSpendMap (spendAllocationsForNGO st sp.ngoRegistrationNumber))
          0).writes,
       (allocLoop tx sp sp.ngoRegistrationNumber
          (buildDonationMap (donationsForNGO st sp.ngoRegistrationNumber)) fuel
          sp.spendAmount.ratValue
          (buildSpendMap (spendAllocationsForNGO st sp.ngoRegistrationNumber))
          0).err⟩ := by
  simp [allocateSpend, hv, hid, hngo, hfunds]

theorem validSpendAmount_of_num (q : ℚ) (hq : q ≠ 0) :
    validSpendAmount (JSVal.num q) = true := by
  simp [validSpendAmount, JSVal.truthy, JSVal.isNumberType, JSVal.isFiniteNumber, hq]

/-- C1: for every store state and spend request on which allocateSpend
completes successfully, with a valid (positive finite) amount, the sum of the
spendAllocationAmount fields over the SpendAllocation records it writes equals
spend.spendAmount exactly. -/
theorem allocateSpend_conservation (st : Store) (tx : String) (sp : SpendRec)
    (fuel : ℕ) (q : ℚ) (hq : sp.spendAmount = JSVal.num q) (hpos : 0 < q)
    (hok : (allocateSpend st tx sp fuel).err = none) :
    sumAllocWrites (allocateSpend st tx sp fuel).writes = q := by
  have hv : validSpendAmount sp.spendAmount = true := by
    rw [hq]
    exact validSpendAmount_of_num q (ne_of_gt hpos)
  have hrat : sp.spendAmount.ratValue = q := by
    rw [hq]
    rfl
  by_cases hid : sp.spendId = ""
  · exfalso
    simp [allocateSpend, hv, hid] at hok
  by_cases hngo : presentDoc (getDoc st ("ngo" ++ sp.ngoRegistrationNumber)) = true
  case neg =>
    exfalso
    simp [allocateSpend, hv, hid, hngo] at hok
  by_cases hfunds : totalDonationAmount (donationsForNGO st sp.ngoRegistrationNumber) -
      totalSpendAmount (spendAllocationsForNGO st sp.ngoRegistrationNumber) <
        sp.spendAmount.ratValue
  · exfalso
    simp [allocateSpend, hv, hid, hngo, hfunds] at hok
  rw [allocateSpend_run st tx sp fuel hv hid hngo hfunds] at hok ⊢
  simp only at hok
  have hsum := allocLoop_sum tx sp sp.ngoRegistrationNumber
    (buildDonationMap (donationsForNGO st sp.ngoRegistrationNumber))
    (buildDonationMap_nodupKeys _) fuel sp.spendAmount.ratValue
    (buildSpendMap (spendAllocationsForNGO st sp.ngoRegistrationNumber)) 0
    (by rw [hrat]; exact le_of_lt hpos) hok
  calc sumAllocWrites (("spend" ++ sp.spendId, Doc.spend sp) ::
        (allocLoop tx sp sp.ngoRegistrationNumber
          (buildDonationMap (donationsForNGO st sp.ngoRegistrationNumber)) fuel
          sp.spendAmount.ratValue
          (buildSpendMap (spendAllocationsForNGO st sp.ngoRegistrationNumber))
          0).writes)
      = sumAllocWrites (allocLoop tx sp sp.ngoRegistrationNumber
          (buildDonationMap (donationsForNGO st sp.ngoRegistrationNumber)) fuel
          sp.spendAmount.ratValue
          (buildSpendMap (spendAllocationsForNGO st sp.ngoRegistrationNumber))
          0).writes := rfl
    _ = sp.spendAmount.ratValue := hsum
    _ = q := hrat

/-- C2: allocateSpend is a pure function of the prior store contents, the
spend request and the transaction id, so two executions from identical inputs
produce identical write sets; moreover the spendAllocation ids are exactly the
transaction id, a dash, and a counter running 0, 1, 2, ... in write order. -/
theorem allocateSpend_deterministic (st : Store) (tx : String) (sp : SpendRec)
    (fuel : ℕ) :
    (∀ st' : Store, st' = st →
      allocateSpend st' tx sp fuel = allocateSpend st tx sp fuel) ∧
    allocIds (allocateSpend st tx sp fuel).writes =
      (List.range' 0 (allocationsOf
        (allocateSpend st tx sp fuel).writes).length).map
        (fun k => tx ++ "-" ++ Nat.repr k) := by
  constructor
  · intro st' h
    rw [h]
  · by_cases hv : validSpendAmount sp.spendAmount = true
    · by_cases hid : sp.spendId = ""
      · simp [allocateSpend, hv, hid, allocIds, allocationsOf]
      · by_cases hngo : presentDoc (getDoc st ("ngo" ++ sp.ngoRegistrationNumber)) = true
        · by_cases hfunds : totalDonationAmount (donationsForNGO st sp.ngoRegistrationNumber) -
              totalSpendAmount (spendAllocationsForNGO st sp.ngoRegistrationNumber) <
                sp.spendAmount.ratValue
          · simp [allocateSpend, hv, hid, hngo, hfunds, allocIds, allocationsOf]
          · rw [allocateSpend_run st tx sp fuel hv hid hngo hfunds]
            simp only
            rw [show allocIds (("spend" ++ sp.spendId, Doc.spend sp) ::
                (allocLoop tx sp sp.ngoRegistrationNumber
                  (buildDonationMap (donationsForNGO st sp.ngoRegistrationNumber)) fuel
                  sp.spendAmount.ratValue
                  (buildSpendMap (spendAllocationsForNGO st sp.ngoRegistrationNumber))
                  0).writes) =
              allocIds (allocLoop tx sp sp.ngoRegistrationNumber
                  (buildDonationMap (donationsForNGO st sp.ngoRegistrationNumber)) fuel
                  sp.spendAmount.ratValue
                  (buildSpendMap (spendAllocationsForNGO st sp.ngoRegistrationNumber))
                  0).writes from rfl]
            rw [allocationsOf_cons_spend]
            exact allocLoop_ids tx sp sp.ngoRegistrationNumber _ fuel _ _ 0
        · simp [allocateSpend, hv, hid, hngo, allocIds, allocationsOf]
    · simp [allocateSpend, hv, allocIds, allocationsOf]

/-- C4: whenever allocateSpend rejects a spend request with one of the
caller-visible rejection reasons (nonexistent NGO, invalid spend amount,
insufficient funds), no put has been issued: the write set is empty. -/
theorem allocateSpend_rejection_total (st : Store) (tx : String) (sp : SpendRec)
    (fuel : ℕ) (e : AllocErr)
    (he : (allocateSpend st tx sp fuel).err = some e)
    (hrej : e = AllocErr.ngoNotFound ∨ e = AllocErr.invalidSpendAmount ∨
      e = AllocErr.insufficientFunds) :
    (allocateSpend st tx sp fuel).writes = [] := by
  by_cases hv : validSpendAmount sp.spendAmount = true
  · by_cases hid : sp.spendId = ""
    · simp [allocateSpend, hv, hid]
    · by_cases hngo : presentDoc (getDoc st ("ngo" ++ sp.ngoRegistrationNumber)) = true
      · by_cases hfunds : totalDonationAmount (donationsForNGO st sp.ngoRegistrationNumber) -
            totalSpendAmount (spendAllocationsForNGO st sp.ngoRegistrationNumber) <
              sp.spendAmount.ratValue
        · simp [allocateSpend, hv, hid, hngo, hfunds]
        · exfalso
          rw [allocateSpend_run st tx sp fuel hv hid hngo hfunds] at he
          simp only at he
          rcases allocLoop_err_cases tx sp sp.ngoRegistrationNumber _ fuel _ _ 0 e he with
            h | h | h | h <;> rcases hrej with hr | hr | hr <;>
            rw [h] at hr <;> exact AllocErr.noConfusion hr
      · simp [allocateSpend, hv, hid, hngo]
  · simp [allocateSpend, hv]

/-!
Claims about the query layer.
-/

theorem matchesSelector_iff (v : QVal) (f val : String) :
    matchesSelector v f val = true ↔
      ∃ w, recField v f = some w ∧ ¬ w = "" ∧ w = val := by
  unfold matchesSelector
  rcases h : recField v f with _ | w <;> simp

/-- C9 counterexample: queryByKey throws (returns an error result) when the
key is absent, contrary to the claim that the point lookup never throws on
absence. -/
theorem queryByKey_throws_on_absence :
    (queryByKey [] "missing").isOk = false := by decide

/-- C9 (amended): the store's get (getState) signals absence non-exceptionally
by returning nothing, and queryByKey returns the stored payload exactly when
the key is present with a nonempty payload, converting absence or emptiness
into a thrown error. -/
theorem queryByKey_amended (st : KVStore) (k : String) :
    (getState st k = none → (queryByKey st k).isOk = false) ∧
    (∀ v, getState st k = some v → isEmptyVal v = false →
      queryByKey st k = .ok v) ∧
    (∀ v, getState st k = some v → isEmptyVal v = true →
      (queryByKey st k).isOk = false) := by
  refine ⟨?_, ?_, ?_⟩
  · intro h
    simp [queryByKey, h, Except.isOk, Except.toBool]
  · intro v hv he
    simp [queryByKey, hv, he]
  · intro v hv he
    simp [queryByKey, hv, he, Except.isOk, Except.toBool]

/-- Witness for the amended C9, at a concrete store: an absent key yields an
error result, a present nonempty key yields its payload. -/
theorem queryByKey_amended_witness :
    (queryByKey [("k", QVal.raw "v")] "absent").isOk = false ∧
    queryByKey [("k", QVal.raw "v")] "k" = .ok (QVal.raw "v") :=
  ⟨(queryByKey_amended [("k", QVal.raw "v")] "absent").1 rfl,
   (queryByKey_amended [("k", QVal.raw "v")] "k").2.1 (QVal.raw "v") rfl rfl⟩

/-- C8 counterexample: with one extra equality field, queryByString does not
return every scanned record whose field equals the given value: a record whose
field is the empty string is excluded by the truthiness check even when the
selector value is also the empty string, so the code differs from the
spec-worded filter. -/
theorem queryByString_empty_value_counterexample :
    queryByString [("donation5", QVal.record [("f", "")])]
        ⟨"donation", some ("f", "")⟩ = [] ∧
    queryByStringSpec [("donation5", QVal.record [("f", "")])]
        ⟨"donation", some ("f", "")⟩ =
      [("donation5", QVal.record [("f", "")])] ∧
    queryByString [("donation5", QVal.record [("f", "")])]
        ⟨"donation", some ("f", "")⟩ ≠
      queryByStringSpec [("donation5", QVal.record [("f", "")])]
        ⟨"donation", some ("f", "")⟩ := by decide

/-- C8 (amended): with a selector containing only docType, queryByString
returns every scanned record (the entries of the store whose key lies in the
range docType + "0" to docType + "z" and whose payload is nonempty),
unfiltered; with exactly one additional equality field it returns exactly
those scanned records whose parsed field is present, nonempty (truthy) and
equal to the given value; absence, emptiness or mismatch of the field silently
excludes the record and never causes an error. -/
theorem queryByString_characterization (st : KVStore) (dt f val : String) :
    (queryByString st ⟨dt, none⟩ = scannedRecords st dt ∧
      ∀ e, e ∈ scannedRecords st dt ↔
        (e ∈ st ∧ keyLe (dt ++ "0") e.1 = true ∧ keyLt e.1 (dt ++ "z") = true ∧
          isEmptyVal e.2 = false)) ∧
    (∀ e, e ∈ queryByString st ⟨dt, some (f, val)⟩ ↔
      (e ∈ scannedRecords st dt ∧
        ∃ w, recField e.2 f = some w ∧ ¬ w = "" ∧ w = val)) := by
  refine ⟨⟨rfl, ?_⟩, ?_⟩
  · intro e
    simp only [scannedRecords, scanRange, List.mem_filter, Bool.and_eq_true,
      Bool.not_eq_true']
    tauto
  · intro e
    simp [queryByString, List.mem_filter, matchesSelector_iff]

/-!
Store-update lemmas and the duplicate spend put of createSpend.
-/

theorem putDoc_eq_mapSet (st : Store) (w : Write) :
    putDoc st w = mapSet st w.1 w.2 := rfl

theorem getDoc_mapSet (st : Store) (k k' : String) (v : Doc) :
    getDoc (mapSet st k v) k' = if k' = k then some v else getDoc st k' := by
  unfold getDoc mapSet
  by_cases hany : (st.any fun p => decide (p.1 = k)) = true
  · rw [if_pos hany, find?_map_rep]
    rcases hf : st.find? (fun p => decide (p.1 = k')) with _ | p
    · have hnone : ∀ x ∈ st, ¬ x.1 = k' := fun x hx => by
        simpa using List.find?_eq_none.mp hf x hx
      have hkk : ¬ k' = k := by
        intro h
        subst h
        rcases List.any_eq_true.mp hany with ⟨x, hx, hxk⟩
        exact hnone x hx (by simpa using hxk)
      rw [hf]
      simp [hkk]
    · have hp : p.1 = k' := by simpa using List.find?_some hf
      rw [hf]
      by_cases hkk : k' = k
      · subst hkk
        simp [hp]
      · have hpk : ¬ p.1 = k := by rw [hp]; exact hkk
        simp [hpk, hkk]
  · rw [if_neg hany, List.find?_append]
    rcases hf : st.find? (fun p => decide (p.1 = k')) with _ | p
    · rw [hf]
      by_cases hkk : k' = k
      · subst hkk
        simp [List.find?]
      · have hkk2 : ¬ k = k' := fun h => hkk h.symm
        simp [List.find?, hkk, hkk2]
    · have hp : p.1 = k' := by simpa using List.find?_some hf
      have hkk : ¬ k' = k := by
        intro h
        subst h
        exact hany (List.any_eq_true.mpr
          ⟨p, List.mem_of_find?_eq_some hf, by simpa using hp⟩)
      rw [hf]
      simp [hkk]

theorem getDoc_putDoc_self (st : Store) (w : Write) :
    getDoc (putDoc st w) w.1 = some w.2 := by
  rw [putDoc_eq_mapSet, getDoc_mapSet, if_pos rfl]

theorem applyWrites_concat (st : Store) (ws : List Write) (w : Write) :
    applyWrites st (ws ++ [w]) = putDoc (applyWrites st ws) w := by
  unfold applyWrites
  rw [List.foldl_append]
  rfl

theorem allocateSpend_ok_writes (st : Store) (tx : String) (sp : SpendRec)
    (fuel : ℕ) (hok : (allocateSpend st tx sp fuel).err = none) :
    ∃ lws, (allocateSpend st tx sp fuel).writes =
      ("spend" ++ sp.spendId, Doc.spend sp) :: lws := by
  by_cases hv : validSpendAmount sp.spendAmount = true
  · by_cases hid : sp.spendId = ""
    · exfalso
      simp [allocateSpend, hv, hid] at hok
    · by_cases hngo : presentDoc (getDoc st ("ngo" ++ sp.ngoRegistrationNumber)) = true
      · by_cases hfunds : totalDonationAmount (donationsForNGO st sp.ngoRegistrationNumber) -
            totalSpendAmount (spendAllocationsForNGO st sp.ngoRegistrationNumber) <
              sp.spendAmount.ratValue
        · exfalso
          simp [allocateSpend, hv, hid, hngo, hfunds] at hok
        · rw [allocateSpend_run st tx sp fuel hv hid hngo hfunds]
          exact ⟨_, rfl⟩
      · exfalso
        simp [allocateSpend, hv, hid, hngo] at hok
  · exfalso
    simp [allocateSpend, hv] at hok

/-- C10: every successful createSpend writes the spend document at key
spend + spendId twice, as its first write (issued inside allocateSpend before
the allocation loop) and as its last write (issued by createSpend after
allocateSpend returns), with identical payload both times (docType spend);
the duplicate put is idempotent: the final store state at that key equals the
state after a single write of the spend record. -/
theorem createSpend_duplicate_put (st : Store) (tx : String) (sp : SpendRec)
    (fuel : ℕ) (hok : (createSpend st tx sp fuel).err = none) :
    (createSpend st tx sp fuel).writes.head? =
        some ("spend" ++ sp.spendId, Doc.spend sp) ∧
      (createSpend st tx sp fuel).writes.getLast? =
        some ("spend" ++ sp.spendId, Doc.spend sp) ∧
      getDoc (applyWrites st (createSpend st tx sp fuel).writes)
          ("spend" ++ sp.spendId) = some (Doc.spend sp) ∧
      getDoc (applyWrites st (createSpend st tx sp fuel).writes)
          ("spend" ++ sp.spendId) =
        getDoc (putDoc st ("spend" ++ sp.spendId, Doc.spend sp))
          ("spend" ++ sp.spendId) := by
  by_cases hngo : presentDoc (getDoc st ("ngo" ++ sp.ngoRegistrationNumber)) = true
  · by_cases hdup : presentDoc (getDoc st ("spend" ++ sp.spendId)) = true
    · exfalso
      simp [createSpend, hngo, hdup] at hok
    · rcases hrun : (allocateSpend st tx sp fuel).err with _ | e
      · have hcw : (createSpend st tx sp fuel).writes =
            (allocateSpend st tx sp fuel).writes ++
              [("spend" ++ sp.spendId, Doc.spend sp)] := by
          simp [createSpend, hngo, hdup, hrun]
        rcases allocateSpend_ok_writes st tx sp fuel hrun with ⟨lws, hws⟩
        refine ⟨?_, ?_, ?_, ?_⟩
        · rw [hcw, hws]
          rfl
        · rw [hcw, List.getLast?_concat]
        · rw [hcw, applyWrites_concat]
          exact getDoc_putDoc_self _ _
        · rw [hcw, applyWrites_concat]
          rw [getDoc_putDoc_self _ _, getDoc_putDoc_self _ _]
      · exfalso
        simp [createSpend, hngo, hdup, hrun] at hok
  · exfalso
    simp [createSpend, hngo] at hok

/-!
Reachability of the fatal numberOfDonations branch.
-/

theorem list_sum_map_sub {α : Type} (l : List α) (f g : α → ℚ) :
    (l.map (fun x => f x - g x)).sum = (l.map f).sum - (l.map g).sum := by
  induction l with
  | nil => simp
  | cons x l ih =>
    simp [ih]
    ring

theorem surplus_ge_available (ds : List Donation)
    (allocs : List SpendAllocation)
    (hnd : (ds.map (fun d => d.donationId)).Nodup)
    (horph : ∀ a ∈ allocs, a.donationId ∈ ds.map (fun d => d.donationId)) :
    totalDonationAmount ds - totalSpendAmount allocs ≤
      surplus (buildDonationMap ds) (buildSpendMap allocs) := by
  rw [buildDonationMap_of_nodup ds hnd]
  unfold surplus
  rw [List.map_map]
  have hpoint : ∀ d ∈ ds,
      d.donationAmount - mapGetD (buildSpendMap allocs) d.donationId 0 ≤
        ((fun p => max 0 (p.2.donationAmount - mapGetD (buildSpendMap allocs) p.1 0)) ∘
          fun d => (d.donationId, d)) d := by
    intro d _
    exact le_max_right 0 _
  have h1 : (ds.map (fun d =>
      d.donationAmount - mapGetD (buildSpendMap allocs) d.donationId 0)).sum ≤
      (ds.map ((fun p => max 0 (p.2.donationAmount - mapGetD (buildSpendMap allocs) p.1 0)) ∘
        fun d => (d.donationId, d))).sum := by
    apply List.sum_le_sum
    intro d hd
    exact hpoint d hd
  have h2 : (ds.map (fun d =>
      d.donationAmount - mapGetD (buildSpendMap allocs) d.donationId 0)).sum =
      totalDonationAmount ds -
        (ds.map (fun d => mapGetD (buildSpendMap allocs) d.donationId 0)).sum := by
    rw [list_sum_map_sub]
    rfl
  have h3 : ds.map (fun d => mapGetD (buildSpendMap allocs) d.donationId 0) =
      ds.map (fun d => sumAllocFor allocs d.donationId) :=
    List.map_congr_left (fun d _ => mapGetD_buildSpendMap allocs d.donationId)
  have h4 : (ds.map (fun d => sumAllocFor allocs d.donationId)).sum =
      totalSpendAmount allocs := by
    have := sum_sumAllocFor allocs (ds.map (fun d => d.donationId)) hnd horph
    rw [List.map_map] at this
    exact this
  rw [h2, h3, h4] at h1
  exact h1

/-- C7 (amended): provided additionally that the donation records of the NGO
carry pairwise distinct donationIds and every prior allocation for the NGO
references one of those donations (the store invariant), the fatal branch
raised when no donation has positive remaining balance while the remaining
amount is still positive is unreachable whenever the sufficient-funds check
passed. -/
theorem allocateSpend_no_fatal (st : Store) (tx : String) (sp : SpendRec)
    (fuel : ℕ) (q : ℚ) (hq : sp.spendAmount = JSVal.num q)
    (hnd : ((donationsForNGO st sp.ngoRegistrationNumber).map
      (fun d => d.donationId)).Nodup)
    (horph : ∀ a ∈ spendAllocationsForNGO st sp.ngoRegistrationNumber,
      a.donationId ∈ (donationsForNGO st sp.ngoRegistrationNumber).map
        (fun d => d.donationId))
    (hfunds : q ≤ totalDonationAmount (donationsForNGO st sp.ngoRegistrationNumber) -
      totalSpendAmount (spendAllocationsForNGO st sp.ngoRegistrationNumber)) :
    (allocateSpend st tx sp fuel).err ≠ some AllocErr.fatalNumberOfDonations := by
  intro he
  have hrat : sp.spendAmount.ratValue = q := by
    rw [hq]
    rfl
  by_cases hv : validSpendAmount sp.spendAmount = true
  · by_cases hid : sp.spendId = ""
    · simp [allocateSpend, hv, hid] at he
    · by_cases hngo : presentDoc (getDoc st ("ngo" ++ sp.ngoRegistrationNumber)) = true
      · by_cases hf : totalDonationAmount (donationsForNGO st sp.ngoRegistrationNumber) -
            totalSpendAmount (spendAllocationsForNGO st sp.ngoRegistrationNumber) <
              sp.spendAmount.ratValue
        · simp [allocateSpend, hv, hid, hngo, hf] at he
        · rw [allocateSpend_run st tx sp fuel hv hid hngo hf] at he
          simp only at he
          refine allocLoop_no_fatal tx sp sp.ngoRegistrationNumber
            (buildDonationMap (donationsForNGO st sp.ngoRegistrationNumber))
            (buildDonationMap_nodupKeys _) fuel sp.spendAmount.ratValue
            (buildSpendMap (spendAllocationsForNGO st sp.ngoRegistrationNumber)) 0
            ?_ he
          rw [hrat]
          calc q ≤ totalDonationAmount (donationsForNGO st sp.ngoRegistrationNumber) -
              totalSpendAmount (spendAllocationsForNGO st sp.ngoRegistrationNumber) := hfunds
            _ ≤ surplus (buildDonationMap (donationsForNGO st sp.ngoRegistrationNumber))
                (buildSpendMap (spendAllocationsForNGO st sp.ngoRegistrationNumber)) :=
              surplus_ge_available _ _ hnd horph
      · simp [allocateSpend, hv, hid, hngo] at he
  · simp [allocateSpend, hv] at he

/-!
Key-order lemmas: allocation keys land inside the spendAllocation scan window.
-/

theorem lexLt_nil_right (l : List Char) : lexLt l [] = false := by
  cases l <;> rfl

theorem lexLt_append_same (p : List Char) :
    ∀ a b, lexLt (p ++ a) (p ++ b) = lexLt a b := by
  induction p with
  | nil => intro a b; rfl
  | cons c p ih =>
    intro a b
    have e1 : lexLt (c :: (p ++ a)) (c :: (p ++ b)) =
        if c < c then true else if c < c then false else lexLt (p ++ a) (p ++ b) := rfl
    show lexLt (c :: (p ++ a)) (c :: (p ++ b)) = lexLt a b
    rw [e1, if_neg (lt_irrefl c), if_neg (lt_irrefl c)]
    exact ih a b

theorem txIdOk_head (tx : String) (h : txIdOk tx = true) :
    ∃ c rest, tx.data = c :: rest ∧ '0' ≤ c ∧ c < 'z' := by
  unfold txIdOk at h
  rcases hd : tx.data with _ | ⟨c, rest⟩ <;> rw [hd] at h
  · simp at h
  · simp only [Bool.and_eq_true, decide_eq_true_eq] at h
    exact ⟨c, rest, rfl, h.1, h.2⟩

theorem inDocRange_append (dt s : String) :
    inDocRange dt (dt ++ s) = (! lexLt s.data ['0'] && lexLt s.data ['z']) := by
  unfold inDocRange keyLe keyLt
  rw [String.data_append, String.data_append, String.data_append,
    lexLt_append_same, lexLt_append_same]

theorem allocKey_inRange (tx s : String) (h : txIdOk tx = true) :
    inDocRange "spendAllocation"
      ("spendAllocation" ++ (tx ++ "-" ++ s)) = true := by
  rcases txIdOk_head tx h with ⟨c, rest, hdata, h0, hz⟩
  rw [inDocRange_append]
  have hsdata : (tx ++ "-" ++ s).data = c :: (rest ++ ('-' :: s.data)) := by
    rw [String.data_append, String.data_append, hdata]
    simp
  rw [hsdata]
  have hlt : lexLt (c :: (rest ++ ('-' :: s.data))) ['z'] = true := by
    have e1 : lexLt (c :: (rest ++ ('-' :: s.data))) ['z'] =
        if c < 'z' then true else if 'z' < c then false
          else lexLt (rest ++ ('-' :: s.data)) [] := rfl
    rw [e1, if_pos hz]
  have hge : lexLt (c :: (rest ++ ('-' :: s.data))) ['0'] = false := by
    have e1 : lexLt (c :: (rest ++ ('-' :: s.data))) ['0'] =
        if c < '0' then true else if '0' < c then false
          else lexLt (rest ++ ('-' :: s.data)) [] := rfl
    rw [e1, if_neg (not_lt.mpr h0)]
    by_cases hcz : '0' < c
    · rw [if_pos hcz]
    · rw [if_neg hcz]
      exact lexLt_nil_right _
  rw [hlt, hge]
  rfl

/-!
Appending fresh writes to the store.
-/

theorem getDoc_eq_none_iff (st : Store) (k : String) :
    getDoc st k = none ↔ ∀ e ∈ st, ¬ e.1 = k := by
  unfold getDoc
  rw [Option.map_eq_none', List.find?_eq_none]
  constructor
  · intro h e he
    simpa using h e he
  · intro h e he
    simpa using h e he

theorem putDoc_fresh (st : Store) (w : Write) (h : ∀ e ∈ st, ¬ e.1 = w.1) :
    putDoc st w = st ++ [w] := by
  unfold putDoc
  rw [if_neg]
  intro hany
  rcases List.any_eq_true.mp hany with ⟨e, he, hek⟩
  exact h e he (by simpa using hek)

theorem applyWrites_fresh (ws : List Write) :
    ∀ st : Store, (ws.map Prod.fst).Nodup →
      (∀ w ∈ ws, ∀ e ∈ st, ¬ e.1 = w.1) →
      applyWrites st ws = st ++ ws := by
  induction ws with
  | nil =>
    intro st _ _
    simp [applyWrites]
  | cons w ws ih =>
    intro st hnd hf
    rw [List.map_cons, List.nodup_cons] at hnd
    obtain ⟨hwn, hnd'⟩ := hnd
    have hput : putDoc st w = st ++ [w] :=
      putDoc_fresh st w (fun e he => hf w (by simp) e he)
    have hf' : ∀ w' ∈ ws, ∀ e ∈ st ++ [w], ¬ e.1 = w'.1 := by
      intro w' hw' e he
      rcases List.mem_append.mp he with h | h
      · exact hf w' (List.mem_cons_of_mem _ hw') e h
      · have : e = w := by simpa using h
        rw [this]
        intro hcol
        exact hwn (hcol ▸ List.mem_map.mpr ⟨w', hw', rfl⟩)
    show applyWrites (putDoc st w) ws = st ++ w :: ws
    rw [hput, ih (st ++ [w]) hnd' hf']
    simp

theorem donationDocsOf_append (st₁ st₂ : Store) :
    donationDocsOf (st₁ ++ st₂) = donationDocsOf st₁ ++ donationDocsOf st₂ := by
  simp [donationDocsOf, List.filterMap_append]

theorem storeAllocSum_append (st₁ st₂ : Store) (did : String) :
    storeAllocSum (st₁ ++ st₂) did =
      storeAllocSum st₁ did + storeAllocSum st₂ did := by
  unfold storeAllocSum
  exact sumAllocWritesFor_append st₁ st₂ did

theorem mem_donationsForNGO (st : Store) (ngo : String) (d : Donation)
    (h : d ∈ donationsForNGO st ngo) :
    d ∈ donationDocsOf st ∧ ¬ d.ngoRegistrationNumber = "" ∧
      d.ngoRegistrationNumber = ngo := by
  unfold donationsForNGO at h
  rcases List.mem_filterMap.mp h with ⟨e, he, hee⟩
  rcases e2 : e.2 with fields | d' | s | a | s
  · rw [e2] at hee
    simp at hee
  · rw [e2] at hee
    rw [show (match Doc.donation d' with
        | Doc.donation d =>
          if inDocRange "donation" e.1 = true ∧ d.ngoRegistrationNumber ≠ "" ∧
              d.ngoRegistrationNumber = ngo then some d else none
        | _ => none) =
        (if inDocRange "donation" e.1 = true ∧ d'.ngoRegistrationNumber ≠ "" ∧
            d'.ngoRegistrationNumber = ngo then some d' else none) from rfl] at hee
    split_ifs at hee with hc
    have hd : d' = d := by simpa using hee
    subst hd
    refine ⟨?_, hc.2.1, hc.2.2⟩
    unfold donationDocsOf
    exact List.mem_filterMap.mpr ⟨e, he, by rw [e2]⟩
  · rw [e2] at hee
    simp at hee
  · rw [e2] at hee
    simp at hee
  · rw [e2] at hee
    simp at hee

theorem storeAllocSum_eq (st : Store) (did : String) :
    storeAllocSum st did = sumAllocFor (allocationsOf st) did := rfl

theorem spendQuery_decomposes (st : Store) (ngo did : String)
    (hwf : ∀ e ∈ st, ∀ a, e.2 = Doc.spendAllocation a → a.donationId = did →
      inDocRange "spendAllocation" e.1 = true ∧
        ¬ a.ngoRegistrationNumber = "" ∧ a.ngoRegistrationNumber = ngo) :
    sumAllocFor (spendAllocationsForNGO st ngo) did = storeAllocSum st did := by
  induction st with
  | nil => rfl
  | cons e st ih =>
    obtain ⟨k, v⟩ := e
    have hwf' : ∀ e' ∈ st, ∀ a, e'.2 = Doc.spendAllocation a →
        a.donationId = did →
        inDocRange "spendAllocation" e'.1 = true ∧
          ¬ a.ngoRegistrationNumber = "" ∧ a.ngoRegistrationNumber = ngo :=
      fun e' he' => hwf e' (List.mem_cons_of_mem _ he')
    have ihe := ih hwf'
    rcases v with fields | d' | s | a | s
    · exact ihe
    · exact ihe
    · exact ihe
    · have hq : ∀ h : inDocRange "spendAllocation" k = true ∧
          ¬ a.ngoRegistrationNumber = "" ∧ a.ngoRegistrationNumber = ngo,
          spendAllocationsForNGO ((k, Doc.spendAllocation a) :: st) ngo =
            a :: spendAllocationsForNGO st ngo := by
        intro h
        unfold spendAllocationsForNGO
        rw [List.filterMap_cons]
        dsimp only
        rw [if_pos h]
      have hal : allocationsOf ((k, Doc.spendAllocation a) :: st) =
          a :: allocationsOf st := rfl
      by_cases hdid : a.donationId = did
      · obtain ⟨hir, hne, hngo⟩ :=
          hwf (k, Doc.spendAllocation a) (List.mem_cons_self _ _) a rfl hdid
        rw [hq ⟨hir, hne, hngo⟩, storeAllocSum_eq, hal, sumAllocFor_cons,
          sumAllocFor_cons, ihe, storeAllocSum_eq]
      · by_cases hcond : inDocRange "spendAllocation" k = true ∧
            ¬ a.ngoRegistrationNumber = "" ∧ a.ngoRegistrationNumber = ngo
        · rw [hq hcond, storeAllocSum_eq, hal, sumAllocFor_cons,
            sumAllocFor_cons, ihe, storeAllocSum_eq]
        · have hq2 : spendAllocationsForNGO ((k, Doc.spendAllocation a) :: st) ngo =
              spendAllocationsForNGO st ngo := by
            unfold spendAllocationsForNGO
            rw [List.filterMap_cons]
            dsimp only
            rw [if_neg hcond]
          rw [hq2, storeAllocSum_eq, hal, sumAllocFor_cons, if_neg hdid, ihe,
            storeAllocSum_eq]
          ring
    · exact ihe

theorem sumAllocWritesFor_cons_spend (k : String) (sp : SpendRec)
    (ws : List Write) (did : String) :
    sumAllocWritesFor ((k, Doc.spend sp) :: ws) did =
      sumAllocWritesFor ws did := rfl

theorem add_bound_le (x y s : ℚ) (hs : s ≤ max 0 (y - x)) (hxy : x ≤ y) :
    x + s ≤ y := by
  rw [max_eq_right (by linarith)] at hs
  linarith

theorem storeInv_step (st : Store) (tx : String) (sp : SpendRec) (fuel : ℕ)
    (hinv : StoreInv st) (htx : txIdOk tx = true)
    (hv : validSpendAmount sp.spendAmount = true)
    (hid : ¬ sp.spendId = "")
    (hngo : presentDoc (getDoc st ("ngo" ++ sp.ngoRegistrationNumber)) = true)
    (hfunds : ¬ (totalDonationAmount (donationsForNGO st sp.ngoRegistrationNumber) -
      totalSpendAmount (spendAllocationsForNGO st sp.ngoRegistrationNumber) <
        sp.spendAmount.ratValue)) :
    StoreInv (st ++ (allocateSpend st tx sp fuel).writes) := by
  rw [allocateSpend_run st tx sp fuel hv hid hngo hfunds]
  simp only
  have hlw := allocLoop_writes_mem tx sp sp.ngoRegistrationNumber
    (buildDonationMap (donationsForNGO st sp.ngoRegistrationNumber)) fuel
    sp.spendAmount.ratValue
    (buildSpendMap (spendAllocationsForNGO st sp.ngoRegistrationNumber)) 0
  have hlpos := allocLoop_writes_pos tx sp sp.ngoRegistrationNumber
    (buildDonationMap (donationsForNGO st sp.ngoRegistrationNumber)) fuel
    sp.spendAmount.ratValue
    (buildSpendMap (spendAllocationsForNGO st sp.ngoRegistrationNumber)) 0
  have hddnil : donationDocsOf (("spend" ++ sp.spendId, Doc.spend sp) ::
      (allocLoop tx sp sp.ngoRegistrationNumber
        (buildDonationMap (donationsForNGO st sp.ngoRegistrationNumber)) fuel
        sp.spendAmount.ratValue
        (buildSpendMap (spendAllocationsForNGO st sp.ngoRegistrationNumber))
        0).writes) = [] := by
    show donationDocsOf ((allocLoop tx sp sp.ngoRegistrationNumber
        (buildDonationMap (donationsForNGO st sp.ngoRegistrationNumber)) fuel
        sp.spendAmount.ratValue
        (buildSpendMap (spendAllocationsForNGO st sp.ngoRegistrationNumber))
        0).writes) = []
    unfold donationDocsOf
    rw [List.filterMap_eq_nil_iff]
    intro w hw
    rcases hlw w hw with ⟨did, d, amt, k, _, he⟩
    rw [he]
    rfl
  have hdd : ∀ lws', donationDocsOf lws' = [] →
      donationDocsOf (st ++ lws') = donationDocsOf st := by
    intro lws' hnil
    rw [donationDocsOf_append, hnil, List.append_nil]
  have hquery : ∀ d ∈ donationDocsOf st,
      d.ngoRegistrationNumber = sp.ngoRegistrationNumber →
      ¬ d.ngoRegistrationNumber = "" →
      sumAllocFor (spendAllocationsForNGO st sp.ngoRegistrationNumber)
          d.donationId = storeAllocSum st d.donationId := by
    intro d hd hdn hdne
    apply spendQuery_decomposes
    intro e he a hea hdid
    obtain ⟨hkey, hir, hamt, hmatch⟩ := hinv.allocWf e he a hea
    have hngoa : a.ngoRegistrationNumber = d.ngoRegistrationNumber :=
      hmatch d hd hdid.symm
    refine ⟨hir, ?_, ?_⟩
    · rw [hngoa]
      exact hdne
    · rw [hngoa]
      exact hdn
  refine ⟨?_, ?_, ?_⟩
  · rw [hdd _ hddnil]
    exact hinv.donUnique
  · intro e he a hea
    rcases List.mem_append.mp he with hold | hnew
    · obtain ⟨hkey, hir, hamt, hmatch⟩ := hinv.allocWf e hold a hea
      refine ⟨hkey, hir, hamt, ?_⟩
      rw [hdd _ hddnil]
      exact hmatch
    · rcases List.mem_cons.mp hnew with hsp | hlwsmem
      · exfalso
        rw [hsp] at hea
        exact Doc.noConfusion hea
      · rcases hlw e hlwsmem with ⟨did, d, amt, k, hmem, he2⟩
        have hae : a = allocRecordData tx sp sp.ngoRegistrationNumber did amt k := by
          rw [he2] at hea
          simpa [allocRecord] using hea.symm
        have hkeye : e.1 = "spendAllocation" ++ a.spendAllocationId := by
          rw [he2, hae]
          rfl
        refine ⟨hkeye, ?_, ?_, ?_⟩
        · rw [hkeye, hae]
          exact allocKey_inRange tx (Nat.repr k) htx
        · rw [hae]
          have hmem2 : allocRecordData tx sp sp.ngoRegistrationNumber did amt k ∈
              allocationsOf (allocLoop tx sp sp.ngoRegistrationNumber
                (buildDonationMap (donationsForNGO st sp.ngoRegistrationNumber)) fuel
                sp.spendAmount.ratValue
                (buildSpendMap (spendAllocationsForNGO st sp.ngoRegistrationNumber))
                0).writes := by
            apply List.mem_filterMap.mpr
            refine ⟨e, hlwsmem, ?_⟩
            rw [he2]
            rfl
          exact le_of_lt (hlpos _ hmem2)
        · rw [hdd _ hddnil]
          intro d' hd' hd'id
          obtain ⟨hd0, hd0id⟩ := mem_buildDonationMap
            (donationsForNGO st sp.ngoRegistrationNumber) (did, d) hmem
          obtain ⟨hddocs, hdne, hdngo⟩ :=
            mem_donationsForNGO st sp.ngoRegistrationNumber d hd0
          have hads : a.donationId = did := by
            rw [hae]
            rfl
          have hideq : d'.donationId = d.donationId := by
            rw [hd'id, hads, hd0id]
          have hd'd : d' = d := hinv.donUnique d' hd' d hddocs hideq
          have hangos : a.ngoRegistrationNumber = sp.ngoRegistrationNumber := by
            rw [hae]
            rfl
          rw [hangos, hd'd, hdngo]
  · intro d hd
    rw [hdd _ hddnil] at hd
    rw [storeAllocSum_append]
    unfold storeAllocSum
    rw [sumAllocWritesFor_cons_spend]
    by_cases hin : d.donationId ∈
        (buildDonationMap (donationsForNGO st sp.ngoRegistrationNumber)).map
          Prod.fst
    · rcases List.mem_map.mp hin with ⟨⟨did0, d0⟩, hp, hfst⟩
      obtain ⟨hd0ds, hd0id⟩ := mem_buildDonationMap _ _ hp
      obtain ⟨hd0docs, hd0ne, hd0ngo⟩ :=
        mem_donationsForNGO st sp.ngoRegistrationNumber d0 hd0ds
      have hideq : d0.donationId = d.donationId := by
        dsimp at hd0id hfst
        rw [hd0id, hfst]
      have hd0d : d0 = d := hinv.donUnique d0 hd0docs d hd hideq
      have hbound := allocLoop_bound tx sp sp.ngoRegistrationNumber
        (buildDonationMap (donationsForNGO st sp.ngoRegistrationNumber))
        (buildDonationMap_nodupKeys _) fuel sp.spendAmount.ratValue
        (buildSpendMap (spendAllocationsForNGO st sp.ngoRegistrationNumber)) 0
        did0 d0 hp
      have hdidr : did0 = d.donationId := by
        rw [← hideq, hd0id]
      rw [hdidr] at hbound
      rw [mapGetD_buildSpendMap] at hbound
      have hq : sumAllocFor (spendAllocationsForNGO st sp.ngoRegistrationNumber)
          d.donationId = storeAllocSum st d.donationId := by
        apply hquery d hd
        · rw [← hd0d]
          exact hd0ngo
        · rw [← hd0d]
          exact hd0ne
      rw [hq] at hbound
      rw [hd0d] at hbound
      exact add_bound_le _ _ _ hbound (hinv.allocBound d hd)
    · have hzero : sumAllocWritesFor (allocLoop tx sp sp.ngoRegistrationNumber
          (buildDonationMap (donationsForNGO st sp.ngoRegistrationNumber)) fuel
          sp.spendAmount.ratValue
          (buildSpendMap (spendAllocationsForNGO st sp.ngoRegistrationNumber))
          0).writes d.donationId = 0 := by
        rw [sumAllocWritesFor_eq]
        apply sumAllocFor_eq_zero
        intro a ha hcol
        exact hin (hcol ▸ allocLoop_allocs_mem tx sp sp.ngoRegistrationNumber
          _ fuel _ _ 0 a ha)
      rw [hzero]
      have hb := hinv.allocBound d hd
      unfold storeAllocSum at hb
      linarith

theorem stepStore_preserves (st : Store) (c : SpendCall)
    (hinv : StoreInv st) (hfresh : callFresh st c = true) :
    StoreInv (stepStore st c) := by
  unfold stepStore
  rcases herr : (allocateSpend st c.tx c.sp c.fuel).err with _ | e
  · show StoreInv (applyWrites st (allocateSpend st c.tx c.sp c.fuel).writes)
    unfold callFresh at hfresh
    simp only [Bool.and_eq_true] at hfresh
    obtain ⟨⟨htx, hnd⟩, hall⟩ := hfresh
    have hnodup : ((allocateSpend st c.tx c.sp c.fuel).writes.map
        Prod.fst).Nodup := by
      simpa using hnd
    have hfr : ∀ w ∈ (allocateSpend st c.tx c.sp c.fuel).writes,
        ∀ e ∈ st, ¬ e.1 = w.1 := by
      intro w hw e he
      have h1 := List.all_eq_true.mp hall w hw
      have hnone : getDoc st w.1 = none := by simpa using h1
      exact (getDoc_eq_none_iff st w.1).mp hnone e he
    rw [applyWrites_fresh _ st hnodup hfr]
    by_cases hv : validSpendAmount c.sp.spendAmount = true
    · by_cases hid : c.sp.spendId = ""
      · exfalso
        simp [allocateSpend, hv, hid] at herr
      · by_cases hngo : presentDoc
            (getDoc st ("ngo" ++ c.sp.ngoRegistrationNumber)) = true
        · by_cases hfunds : totalDonationAmount
              (donationsForNGO st c.sp.ngoRegistrationNumber) -
              totalSpendAmount (spendAllocationsForNGO st
                c.sp.ngoRegistrationNumber) < c.sp.spendAmount.ratValue
          · exfalso
            simp [allocateSpend, hv, hid, hngo, hfunds] at herr
          · exact storeInv_step st c.tx c.sp c.fuel hinv htx hv hid hngo hfunds
        · exfalso
          simp [allocateSpend, hv, hid, hngo] at herr
    · exfalso
      simp [allocateSpend, hv] at herr
  · exact hinv

theorem runSeq_preserves (cs : List SpendCall) :
    ∀ st, StoreInv st → freshSeq st cs = true → StoreInv (runSeq st cs) := by
  induction cs with
  | nil =>
    intro st h _
    exact h
  | cons c cs ih =>
    intro st hinv hfresh
    unfold freshSeq at hfresh
    simp only [Bool.and_eq_true] at hfresh
    exact ih _ (stepStore_preserves st c hinv hfresh.1) hfresh.2

/-- C3: starting from a store satisfying the invariant, after any sequence of
allocateSpend calls with fresh transaction ids (applying the writes of the
successful ones), every donation document's total allocated amount is at most
its donationAmount; and within a single equal-share round, each donation
receives at most its remaining balance (donationAmount minus the amount
already allocated to it). -/
theorem no_over_allocation (st : Store) (cs : List SpendCall)
    (hinv : StoreInv st) (hfresh : freshSeq st cs = true) :
    (∀ d ∈ donationDocsOf (runSeq st cs),
        storeAllocSum (runSeq st cs) d.donationId ≤ d.donationAmount) ∧
    (∀ tx sp ngo share (dons : List (String × Donation)) amount dsm ctr,
      0 < share → (dons.map Prod.fst).Nodup →
      ∀ did d, (did, d) ∈ dons →
        sumAllocWritesFor (allocPass tx sp ngo share dons amount dsm ctr).writes
            did ≤ max 0 (d.donationAmount - mapGetD dsm did 0)) := by
  constructor
  · exact (runSeq_preserves cs st hinv hfresh).allocBound
  · intro tx sp ngo share dons amount dsm ctr hs hnd did d hmem
    exact allocPass_bound tx sp ngo share hs dons hnd amount dsm ctr did d hmem

/-!
Concrete evaluations: the validation gap, the scenario trace, the reachable
fatal branch, and witnesses for the parametric claims.
-/

section ConcreteEvaluation

attribute [local semireducible] Rat.add Rat.sub Rat.mul Rat.inv Rat.ofScientific

/-- C5 (code bug): the truthiness guard rejects zero, NaN, infinite, string
and missing amounts, and allocateSpend rejects a spend naming a missing NGO;
but a negative amount passes the guard, so the run completes without error and
records the spend document while allocating nothing — the code does not reject
every spendAmount that is not a positive finite number. -/
theorem allocateSpend_validation_gap :
    validSpendAmount (JSVal.num 0) = false ∧
    validSpendAmount JSVal.nan = false ∧
    validSpendAmount JSVal.posInf = false ∧
    validSpendAmount JSVal.negInf = false ∧
    validSpendAmount (JSVal.str "80") = false ∧
    validSpendAmount JSVal.undef = false ∧
    (allocateSpend c5Store "t5" ⟨"S5", JSVal.num 0, "dt", "d", "N5"⟩ 3).err =
      some AllocErr.invalidSpendAmount ∧
    (allocateSpend [] "t5" c5Spend 3).err = some AllocErr.ngoNotFound ∧
    validSpendAmount (JSVal.num (-5)) = true ∧
    (allocateSpend c5Store "t5" c5Spend 3).err = none ∧
    (allocateSpend c5Store "t5" c5Spend 3).writes =
      [("spend" ++ "S5", Doc.spend c5Spend)] := by
  decide

/-- C6: from NGO N1 with donations D1 = 30 and D2 = 70 and no prior
allocations, a spend of 80 succeeds; D1 receives allocations totalling
exactly 30 (fully exhausted), D2 receives exactly 50, and the allocation
records sum to 80. -/
theorem allocateSpend_scenario_trace :
    (allocateSpend c6Store "tx" c6Spend 4).err = none ∧
    sumAllocWritesFor (allocateSpend c6Store "tx" c6Spend 4).writes "D1" = 30 ∧
    sumAllocWritesFor (allocateSpend c6Store "tx" c6Spend 4).writes "D2" = 50 ∧
    sumAllocWrites (allocateSpend c6Store "tx" c6Spend 4).writes = 80 := by
  decide

/-- C7 counterexample: with two donation records sharing donationId H1 (one of
amount 50, one of amount 0), the sufficient-funds check passes for a spend of
50, yet the donation map retains only the amount-0 record, so the loop reaches
the branch the claim calls unreachable: the stated precondition is not enough
and donationId uniqueness is also required. -/
theorem allocateSpend_fatal_reachable :
    ¬ (totalDonationAmount (donationsForNGO c7BadStore "N7") -
        totalSpendAmount (spendAllocationsForNGO c7BadStore "N7") <
          c7Spend.spendAmount.ratValue) ∧
    (allocateSpend c7BadStore "t7" c7Spend 2).err =
      some AllocErr.fatalNumberOfDonations := by
  decide

/-- Witness for the conservation claim: a spend of 40 against one donation of
100 allocates exactly 40 in total. -/
theorem allocateSpend_conservation_witness :
    sumAllocWrites (allocateSpend c1Store "t1" c1Spend 3).writes = 40 :=
  allocateSpend_conservation c1Store "t1" c1Spend 3 40 rfl (by norm_num)
    (by decide)

/-- Witness for the determinism claim at concrete data. -/
theorem allocateSpend_deterministic_witness :
    allocateSpend c2Store "t2" c2Spend 3 = allocateSpend c2Store "t2" c2Spend 3 ∧
    allocIds (allocateSpend c2Store "t2" c2Spend 3).writes =
      (List.range' 0 (allocationsOf
        (allocateSpend c2Store "t2" c2Spend 3).writes).length).map
        (fun k => "t2" ++ "-" ++ Nat.repr k) :=
  ⟨(allocateSpend_deterministic c2Store "t2" c2Spend 3).1 c2Store rfl,
   (allocateSpend_deterministic c2Store "t2" c2Spend 3).2⟩

/-- The concrete starting store of the sequence scenario satisfies the store
invariant. -/
theorem c3Store_inv : StoreInv c3Store := by
  refine ⟨by decide, ?_, by decide⟩
  intro e he a hea
  rcases List.mem_cons.mp he with h | h
  · rw [h] at hea
    simp at hea
  · rcases List.mem_cons.mp h with h2 | h2
    · rw [h2] at hea
      simp at hea
    · exact absurd h2 (List.not_mem_nil e)

/-- Witness for the no-over-allocation claim: donation F1 = 100, spends of 70
then 30 under fresh transaction ids; afterwards every donation document's
allocation total stays within its donationAmount. -/
theorem no_over_allocation_witness :
    storeAllocSum (runSeq c3Store c3Calls)
        (Donation.donationId ⟨"F1", 100, "dt", "don", "N3"⟩) ≤
      Donation.donationAmount ⟨"F1", 100, "dt", "don", "N3"⟩ :=
  (no_over_allocation c3Store c3Calls c3Store_inv (by decide)).1
    ⟨"F1", 100, "dt", "don", "N3"⟩ (by decide)

/-- Witness for the total-rejection claim: an NGO with no donations rejects a
spend of 10 for insufficient funds and writes nothing. -/
theorem allocateSpend_rejection_total_witness :
    (allocateSpend c4Store "t4" c4Spend 2).writes = [] :=
  allocateSpend_rejection_total c4Store "t4" c4Spend 2
    AllocErr.insufficientFunds (by decide) (Or.inr (Or.inr rfl))

/-- Witness for the amended unreachability claim: with distinct donationIds
and sufficient funds, the fatal branch is not taken. -/
theorem allocateSpend_no_fatal_witness :
    (allocateSpend c7GoodStore "t7" c7Spend 3).err ≠
      some AllocErr.fatalNumberOfDonations :=
  allocateSpend_no_fatal c7GoodStore "t7" c7Spend 3 50 rfl (by decide)
    (by decide) (by decide)

/-- Witness for the duplicate-put claim at concrete data. -/
theorem createSpend_duplicate_put_witness :
    (createSpend c10Store "t10" c10Spend 3).writes.head? =
        some ("spend" ++ c10Spend.spendId, Doc.spend c10Spend) ∧
      (createSpend c10Store "t10" c10Spend 3).writes.getLast? =
        some ("spend" ++ c10Spend.spendId, Doc.spend c10Spend) ∧
      getDoc (applyWrites c10Store
          (createSpend c10Store "t10" c10Spend 3).writes)
          ("spend" ++ c10Spend.spendId) = some (Doc.spend c10Spend) ∧
      getDoc (applyWrites c10Store
          (createSpend c10Store "t10" c10Spend 3).writes)
          ("spend" ++ c10Spend.spendId) =
        getDoc (putDoc c10Store
            ("spend" ++ c10Spend.spendId, Doc.spend c10Spend))
          ("spend" ++ c10Spend.spendId) :=
  createSpend_duplicate_put c10Store "t10" c10Spend 3 (by decide)

end ConcreteEvaluation
